import Mathlib

/-!
Verification of the big-AGI AIX Bedrock streaming core:
  * the AWS EventStream binary demultiplexer
    (src/modules/aix/server/dispatch/stream.demuxer.aws-eventstream.ts)
  * the Bedrock Converse stream parser
    (src/modules/aix/server/dispatch/chatGenerate/parsers/bedrock-converse.parser.ts)
  * the Bedrock Converse request adapter (aixToBedrockConverse)

Strings are embedded as lists of character codes (`List Nat`), matching the
byte/UTF-16-code-unit view of the JavaScript source; all ASCII-relevant
behavior is preserved exactly.
-/

/-- Character codes of a Lean string literal (ASCII-faithful embedding of JS strings). -/

def strB (s : String) : List Nat := s.toList.map Char.toNat

/-- Left brace character code (written numerically). -/

def lbrace : Nat := 123

/-- Right brace character code. -/

def rbrace : Nat := 125

-- ===========================================================================
-- JSON values and JSON.parse (shallow model of the platform JSON parser)
-- ===========================================================================

/-- A parsed JSON value. Strings are code-unit lists; numbers keep their
integer part (no claim under verification inspects fractional values). -/

inductive JValue where
  | jnull
  | jbool (b : Bool)
  | jnum (n : Int)
  | jstr (s : List Nat)
  | jarr (elems : List JValue)
  | jobj (fields : List (List Nat × JValue))
deriving Repr

/-- JSON whitespace characters (space, tab, LF, CR). -/

def isJsonWs (c : Nat) : Bool := c = 32 || c = 9 || c = 10 || c = 13

/-- Drop leading JSON whitespace. -/

def skipWs : List Nat → List Nat
  | [] => []
  | c :: cs => if isJsonWs c then skipWs cs else c :: cs

/-- Hex digit value. -/

def hexVal (c : Nat) : Option Nat :=
  if 48 ≤ c ∧ c ≤ 57 then some (c - 48)
  else if 65 ≤ c ∧ c ≤ 70 then some (c - 55)
  else if 97 ≤ c ∧ c ≤ 102 then some (c - 87)
  else none

/-- Decimal digit test. -/

def isDigit (c : Nat) : Bool := 48 ≤ c && c ≤ 57

/-- Parse the body of a JSON string after the opening quote; returns the
string contents and the remaining input (after the closing quote).
Fuel-bounded (any fuel above the input length behaves identically). -/

def parseJStrAux : Nat → List Nat → Except String (List Nat × List Nat)
  | 0, _ => .error "fuel"
  | _, [] => .error "unterminated string"
  | fuel + 1, c :: cs =>
    if c = 34 then .ok ([], cs)
    else if c = 92 then
      match cs with
      | [] => .error "bad escape"
      | e :: cs' =>
        if e = 34 ∨ e = 92 ∨ e = 47 then
          match parseJStrAux fuel cs' with
          | .ok (s, r) => .ok (e :: s, r)
          | .error m => .error m
        else if e = 98 then (parseJStrAux fuel cs').map (fun (s, r) => (8 :: s, r))
        else if e = 102 then (parseJStrAux fuel cs').map (fun (s, r) => (12 :: s, r))
        else if e = 110 then (parseJStrAux fuel cs').map (fun (s, r) => (10 :: s, r))
        else if e = 114 then (parseJStrAux fuel cs').map (fun (s, r) => (13 :: s, r))
        else if e = 116 then (parseJStrAux fuel cs').map (fun (s, r) => (9 :: s, r))
        else if e = 117 then
          match cs' with
          | h1 :: h2 :: h3 :: h4 :: cs'' =>
            match hexVal h1, hexVal h2, hexVal h3, hexVal h4 with
            | some a, some b, some c', some d =>
              match parseJStrAux fuel cs'' with
              | .ok (s, r) => .ok ((a * 4096 + b * 256 + c' * 16 + d) :: s, r)
              | .error m => .error m
            | _, _, _, _ => .error "bad unicode escape"
          | _ => .error "bad unicode escape"
        else .error "bad escape"
    else if c < 32 then .error "control character in string"
    else
      match parseJStrAux fuel cs with
      | .ok (s, r) => .ok (c :: s, r)
      | .error m => .error m

/-- Parse a JSON string body with sufficient fuel. -/

def parseJStr (cs : List Nat) : Except String (List Nat × List Nat) :=
  parseJStrAux (cs.length + 1) cs

/-- Take a (possibly empty) run of decimal digits. -/

def takeDigits : List Nat → (List Nat × List Nat)
  | [] => ([], [])
  | c :: cs =>
    if isDigit c then
      let (ds, r) := takeDigits cs
      (c :: ds, r)
    else ([], c :: cs)

/-- Natural number denoted by a digit run. -/

def natOfDigits (ds : List Nat) : Nat := ds.foldl (fun a c => a * 10 + (c - 48)) 0

/-- Parse a JSON number (integer value retained; fraction/exponent consumed). -/

def parseJNum (input : List Nat) : Except String (Int × List Nat) :=
  let (neg, cs) := match input with
    | 45 :: rest => (true, rest)
    | rest => (false, rest)
  match cs with
  | [] => .error "bad number"
  | c :: _ =>
    if ¬ isDigit c then .error "bad number"
    else
      let (ds, r1) := takeDigits cs
      if ds.length > 1 ∧ ds.headI = 48 then .error "bad number (leading zero)"
      else
        let intVal : Int := if neg then -(natOfDigits ds : Int) else (natOfDigits ds : Int)
        -- fraction
        let r2 : Except String (List Nat) :=
          match r1 with
          | 46 :: fr =>
            let (fds, r) := takeDigits fr
            if fds.isEmpty then .error "bad number (fraction)" else .ok r
          | _ => .ok r1
        match r2 with
        | .error m => .error m
        | .ok r2' =>
          match r2' with
          | e :: er =>
            if e = 101 ∨ e = 69 then
              let er' := match er with
                | 43 :: t => t
                | 45 :: t => t
                | t => t
              let (eds, r) := takeDigits er'
              if eds.isEmpty then .error "bad number (exponent)" else .ok (intVal, r)
            else .ok (intVal, r2')
          | [] => .ok (intVal, [])

/-- Check that the input starts with the given literal and return the rest. -/

def expectLit (lit : List Nat) (cs : List Nat) : Except String (List Nat) :=
  if lit.isPrefixOf cs then .ok (cs.drop lit.length) else .error "bad literal"

mutual

/-- Parse one JSON value (fuel-bounded recursive descent). -/
def parseJVal (fuel : Nat) (input : List Nat) : Except String (JValue × List Nat) :=
  match fuel with
  | 0 => .error "fuel"
  | fuel + 1 =>
    match skipWs input with
    | [] => .error "unexpected end"
    | c :: cs =>
      if c = 110 then (expectLit (strB "ull") cs).map (fun r => (.jnull, r))
      else if c = 116 then (expectLit (strB "rue") cs).map (fun r => (.jbool true, r))
      else if c = 102 then (expectLit (strB "alse") cs).map (fun r => (.jbool false, r))
      else if c = 34 then (parseJStr cs).map (fun (s, r) => (.jstr s, r))
      else if c = 91 then
        match skipWs cs with
        | 93 :: r => .ok (.jarr [], r)
        | rest => (parseJArr fuel rest).map (fun (xs, r) => (.jarr xs, r))
      else if c = lbrace then
        match skipWs cs with
        | x :: r => if x = rbrace then .ok (.jobj [], r)
                    else (parseJObj fuel (x :: r)).map (fun (fs, r') => (.jobj fs, r'))
        | [] => .error "unexpected end"
      else if c = 45 ∨ isDigit c then (parseJNum (c :: cs)).map (fun (n, r) => (.jnum n, r))
      else .error "unexpected token"

/-- Parse comma-separated array elements up to the closing bracket. -/
def parseJArr (fuel : Nat) (input : List Nat) : Except String (List JValue × List Nat) :=
  match fuel with
  | 0 => .error "fuel"
  | fuel + 1 =>
    match parseJVal fuel input with
    | .error m => .error m
    | .ok (v, r) =>
      match skipWs r with
      | 44 :: r' => (parseJArr fuel r').map (fun (xs, r'') => (v :: xs, r''))
      | 93 :: r' => .ok ([v], r')
      | _ => .error "bad array"

/-- Parse comma-separated object members up to the closing brace. -/
def parseJObj (fuel : Nat) (input : List Nat) : Except String (List (List Nat × JValue) × List Nat) :=
  match fuel with
  | 0 => .error "fuel"
  | fuel + 1 =>
    match skipWs input with
    | 34 :: cs =>
      match parseJStr cs with
      | .error m => .error m
      | .ok (k, r) =>
        match skipWs r with
        | 58 :: r' =>
          match parseJVal fuel r' with
          | .error m => .error m
          | .ok (v, r'') =>
            match skipWs r'' with
            | 44 :: r3 => (parseJObj fuel r3).map (fun (fs, r4) => ((k, v) :: fs, r4))
            | x :: r3 => if x = rbrace then .ok ([(k, v)], r3) else .error "bad object"
            | [] => .error "bad object"
        | _ => .error "bad object (missing colon)"
    | _ => .error "bad object (missing key)"

end

/-- Model of `JSON.parse` over code-unit input. -/

def jsonParse (input : List Nat) : Except String JValue :=
  match parseJVal (2 * input.length + 8) input with
  | .error m => .error m
  | .ok (v, rest) =>
    match skipWs rest with
    | [] => .ok v
    | _ => .error "trailing characters"

/-- JS property access `obj.k` (undefined — `none` — on non-objects; for
duplicate keys `JSON.parse` keeps the last binding, hence the reversed scan). -/

def getFieldJS (v : JValue) (k : List Nat) : Option JValue :=
  match v with
  | .jobj fs => ((fs.reverse).find? (fun p => decide (p.1 = k))).map (·.2)
  | _ => none

/-- JS truthiness of a value. -/

def jsTruthy (v : JValue) : Bool :=
  match v with
  | .jnull => false
  | .jbool b => b
  | .jnum n => decide (n ≠ 0)
  | .jstr s => decide (s ≠ [])
  | .jarr _ => true
  | .jobj _ => true

/-- JS truthiness of a possibly-undefined value. -/

def truthyOpt (o : Option JValue) : Bool :=
  match o with
  | none => false
  | some v => jsTruthy v

/-- JS `a || b` over possibly-undefined values. -/

def jsOr (a b : Option JValue) : Option JValue := if truthyOpt a then a else b

-- ===========================================================================
-- AWS EventStream binary frame demultiplexer
-- (stream.demuxer.aws-eventstream.ts)
-- ===========================================================================

/-- `PRELUDE_LENGTH` from the source: 4 (total length) + 4 (headers length)
+ 4 (prelude CRC). -/

def PRELUDE_LENGTH : Nat := 12

/-- `MESSAGE_CRC_LENGTH` from the source. -/

def MESSAGE_CRC_LENGTH : Nat := 4

/-- `MIN_MESSAGE_LENGTH` from the source: smallest valid frame (16 bytes). -/

def MIN_MESSAGE_LENGTH : Nat := PRELUDE_LENGTH + MESSAGE_CRC_LENGTH

/-- `MAX_MESSAGE_LENGTH` from the source: 25 MB. -/

def MAX_MESSAGE_LENGTH : Nat := 25 * 1024 * 1024

/-- `buffer[i]` in JS: `some` byte, or `none` (undefined) out of range. -/

def byteAt (b : List Nat) (i : Nat) : Option Nat := b.get? i

/-- Big-endian 32-bit read via `DataView.getUint32` (used only in range). -/

def be32At (b : List Nat) (i : Nat) : Nat :=
  b.getD i 0 * 16777216 + b.getD (i + 1) 0 * 65536 + b.getD (i + 2) 0 * 256 + b.getD (i + 3) 0

/-- `new DataView(buffer, i, 2).getUint16(0)`: `none` models the RangeError
thrown by the DataView constructor when fewer than 2 bytes remain. -/

def u16At (b : List Nat) (i : Nat) : Option Nat :=
  if i + 2 ≤ b.length then some (b.getD i 0 * 256 + b.getD (i + 1) 0) else none

/-- `buffer.slice(i, j)` relative to the current frame start (clamping). -/

def sliceB (b : List Nat) (i j : Nat) : List Nat := (b.drop i).take (j - i)

/-- One decoded EventStream frame: header map and payload bytes. -/

structure ESFrame where
  headers : List (List Nat × List Nat)
  payload : List Nat
deriving DecidableEq, Repr

/-- `Map.set` of the JS header map: update in place or append. -/

def mapSet (hs : List (List Nat × List Nat)) (k v : List Nat) : List (List Nat × List Nat) :=
  if hs.any (fun p => decide (p.1 = k)) then
    hs.map (fun p => if p.1 = k then (k, v) else p)
  else hs ++ [(k, v)]

/-- `Map.get` of the JS header map. -/

def mapGet (hs : List (List Nat × List Nat)) (k : List Nat) : Option (List Nat) :=
  (hs.find? (fun p => decide (p.1 = k))).map (·.2)

/-- The header-block scan loop of `_parseFrame`, one call per header.

Faithful to the JS semantics of the source, relative to the frame start:
reading an out-of-range name-length or value-type byte yields `undefined`,
whose NaN/`in`-test cascade exits the loop without adding a header (modelled
as returning the accumulated headers); a 2-byte `DataView` length read past
the end of the buffer throws a RangeError (modelled as `Except.error`);
an unknown value type breaks out of the loop.

`n` is the frame's declared total length; the returned `Bool` is an
instrumentation flag recording that every read (from this header onward)
stayed inside the first `n` bytes; it does not influence the parse result. -/

def parseHeadersAux (b : List Nat) (n hEnd : Nat) :
    Nat → Nat → List (List Nat × List Nat) → Except Unit (List (List Nat × List Nat) × Bool)
  | 0, _, acc => .ok (acc, false)
  | fuel + 1, ho, acc =>
    if hEnd ≤ ho then .ok (acc, true)
    else
      match byteAt b ho with
      | none => .ok (acc, false)
      | some nameLen =>
        let c1 := decide (ho + 1 + nameLen ≤ n)
        let name := sliceB b (ho + 1) (ho + 1 + nameLen)
        let ho2 := ho + 1 + nameLen
        match byteAt b ho2 with
        | none => .ok (acc, false)
        | some vt =>
          let c2 := decide (ho2 < n)
          let ho3 := ho2 + 1
          if vt = 7 then
            match u16At b ho3 with
            | none => .error ()
            | some len =>
              let value := sliceB b (ho3 + 2) (ho3 + 2 + len)
              match parseHeadersAux b n hEnd fuel (ho3 + 2 + len) (mapSet acc name value) with
              | .error e => .error e
              | .ok (h, fl) => .ok (h, c1 && c2 && decide (ho3 + 2 + len ≤ n) && fl)
          else if vt = 6 then
            match u16At b ho3 with
            | .none => .error ()
            | .some len =>
              match parseHeadersAux b n hEnd fuel (ho3 + 2 + len) acc with
              | .error e => .error e
              | .ok (h, fl) => .ok (h, c1 && c2 && decide (ho3 + 2 ≤ n) && fl)
          else if vt = 0 ∨ vt = 1 then
            match parseHeadersAux b n hEnd fuel ho3 acc with
            | .error e => .error e
            | .ok (h, fl) => .ok (h, c1 && c2 && fl)
          else if vt = 2 then
            match parseHeadersAux b n hEnd fuel (ho3 + 1) acc with
            | .error e => .error e
            | .ok (h, fl) => .ok (h, c1 && c2 && fl)
          else if vt = 3 then
            match parseHeadersAux b n hEnd fuel (ho3 + 2) acc with
            | .error e => .error e
            | .ok (h, fl) => .ok (h, c1 && c2 && fl)
          else if vt = 4 then
            match parseHeadersAux b n hEnd fuel (ho3 + 4) acc with
            | .error e => .error e
            | .ok (h, fl) => .ok (h, c1 && c2 && fl)
          else if vt = 5 ∨ vt = 8 then
            match parseHeadersAux b n hEnd fuel (ho3 + 8) acc with
            | .error e => .error e
            | .ok (h, fl) => .ok (h, c1 && c2 && fl)
          else if vt = 9 then
            match parseHeadersAux b n hEnd fuel (ho3 + 16) acc with
            | .error e => .error e
            | .ok (h, fl) => .ok (h, c1 && c2 && fl)
          else .ok (acc, c1 && c2)

/-- Result of one `_parseFrame` attempt at the front of the buffer. -/

inductive StepRes where
  | needMore
  | fatal (totalLength : Nat)
  | viewErr
  | frame (f : ESFrame) (consumed : Nat) (loc : Bool)
deriving DecidableEq, Repr

/-- `_parseFrame(buffer, offset)` of the source, with the buffer given as the
suffix starting at `offset`. `fatal` is the thrown length-sanity Error (its
message embeds the offending total length); `viewErr` the DataView
RangeError; `needMore` the `null` return. -/

def stepFrame (b : List Nat) : StepRes :=
  if b.length < PRELUDE_LENGTH then .needMore
  else
    let totalLength := be32At b 0
    let headersLength := be32At b 4
    if totalLength < MIN_MESSAGE_LENGTH ∨ MAX_MESSAGE_LENGTH < totalLength then .fatal totalLength
    else if b.length < totalLength then .needMore
    else
      let hEnd := PRELUDE_LENGTH + headersLength
      match parseHeadersAux b totalLength hEnd (hEnd + 1) PRELUDE_LENGTH [] with
      | .error () => .viewErr
      | .ok (hdrs, loc) =>
        .frame ⟨hdrs, sliceB b (PRELUDE_LENGTH + headersLength) (totalLength - MESSAGE_CRC_LENGTH)⟩
          totalLength loc

/-- Fatal demultiplexer outcomes: the length-sanity Error or a RangeError. -/

inductive DemuxErr where
  | badLength (totalLength : Nat)
  | viewOut
deriving DecidableEq, Repr

instance {ε α : Type} [DecidableEq ε] [DecidableEq α] : DecidableEq (Except ε α) := fun x y =>
  match x, y with
  | .error a, .error b =>
    if h : a = b then .isTrue (by rw [h]) else .isFalse (fun hh => by injection hh with h'; exact h h')
  | .ok a, .ok b =>
    if h : a = b then .isTrue (by rw [h]) else .isFalse (fun hh => by injection hh with h'; exact h h')
  | .error _, .ok _ => .isFalse (fun hh => by injection hh)
  | .ok _, .error _ => .isFalse (fun hh => by injection hh)

/-- Result of draining all complete frames from the front of a buffer:
the decoded frames in order, then either the retained residual buffer or a
thrown error; `loc` instruments whether every parse stayed inside its frame. -/

structure DrainRes where
  frames : List ESFrame
  final : Except DemuxErr (List Nat)
  loc : Bool
deriving DecidableEq, Repr

/-- Bounds of a successful `stepFrame`. -/

def drainAux : Nat → List Nat → DrainRes
  | 0, b => ⟨[], .ok b, true⟩
  | fuel + 1, b =>
    match stepFrame b with
    | .needMore => ⟨[], .ok b, true⟩
    | .fatal tl => ⟨[], .error (.badLength tl), true⟩
    | .viewErr => ⟨[], .error .viewOut, false⟩
    | .frame f n l =>
      let d := drainAux fuel (b.drop n)
      ⟨f :: d.frames, d.final, l && d.loc⟩

/-- The frame-parsing loop of one `transform` call. -/

def drain (b : List Nat) : DrainRes := drainAux (b.length + 1) b

/-- `drainAux` ignores the fuel once it exceeds the buffer length. -/

structure FeedRes where
  frames : List ESFrame
  final : Except DemuxErr (List Nat)
deriving DecidableEq, Repr

/-- Feed chunks one `transform` call at a time, threading the retained
buffer; a thrown error aborts the stream (no further chunks are processed). -/

def feedGo (st : List Nat) : List (List Nat) → FeedRes
  | [] => ⟨[], .ok st⟩
  | c :: cs =>
    let d := drain (st ++ c)
    match d.final with
    | .error e => ⟨d.frames, .error e⟩
    | .ok st' =>
      let r := feedGo st' cs
      ⟨d.frames ++ r.frames, r.final⟩

/-- Feed a chunked byte stream through the transform from an empty buffer. -/

def feedAll (chunks : List (List Nat)) : FeedRes := feedGo [] chunks

-- ===========================================================================
-- Frame -> SSE event re-encoding (the body of the transform loop)
-- ===========================================================================

/-- Base64 alphabet value of a character code. -/

def b64Val (c : Nat) : Option Nat :=
  if 65 ≤ c ∧ c ≤ 90 then some (c - 65)
  else if 97 ≤ c ∧ c ≤ 122 then some (c - 71)
  else if 48 ≤ c ∧ c ≤ 57 then some (c + 4)
  else if c = 43 then some 62
  else if c = 47 then some 63
  else none

/-- ASCII whitespace stripped by `atob`. -/

def isB64Ws (c : Nat) : Bool := c = 9 || c = 10 || c = 12 || c = 13 || c = 32

/-- Decode a list of 6-bit values into bytes (4 values per 3 bytes). -/

def b64Groups : List Nat → List Nat
  | a :: b :: c :: d :: rest =>
    (a * 4 + b / 16) :: ((b % 16) * 16 + c / 4) :: ((c % 4) * 64 + d) :: b64Groups rest
  | [a, b, c] => [a * 4 + b / 16, (b % 16) * 16 + c / 4]
  | [a, b] => [a * 4 + b / 16]
  | [_] => []
  | [] => []

/-- Drop up to two trailing `=` padding characters. -/

def dropB64Pad (s : List Nat) : List Nat :=
  match s.reverse with
  | 61 :: 61 :: r => r.reverse
  | 61 :: r => r.reverse
  | _ => s

/-- `atob` (the platform base64 decoder used by `_base64Decode`): strip ASCII
whitespace, handle padding, reject invalid alphabets/lengths, decode. -/

def atobJS (s : List Nat) : Except Unit (List Nat) :=
  let t := s.filter (fun c => ¬ isB64Ws c)
  let t := if t.length % 4 = 0 then dropB64Pad t else t
  if t.length % 4 = 1 then .error ()
  else
    match t.mapM b64Val with
    | none => .error ()
    | some vals => .ok (b64Groups vals)

/-- JS string coercion of a JSON value (used when a payload field that is fed
to `atob` or a template literal is not a string). -/

def toJSString (v : JValue) : List Nat :=
  match v with
  | .jnull => strB "null"
  | .jbool true => strB "true"
  | .jbool false => strB "false"
  | .jnum n => strB (toString n)
  | .jstr s => s
  | .jarr _ => []
  | .jobj _ => strB "[object Object]"

/-- `JSON.stringify` of a string value: quote and escape. -/

def jsonQuote (s : List Nat) : List Nat :=
  34 :: (s.flatMap (fun c =>
    if c = 34 then [92, 34]
    else if c = 92 then [92, 92]
    else if c = 8 then [92, 98]
    else if c = 9 then [92, 116]
    else if c = 10 then [92, 110]
    else if c = 12 then [92, 102]
    else if c = 13 then [92, 114]
    else if c < 32 then
      [92, 117, 48, 48, 48 + c / 16, if c % 16 < 10 then 48 + c % 16 else 87 + c % 16]
    else [c])) ++ [34]

/-- `event: {name}\ndata: {data}\n\n` SSE rendering. -/

def sseBytes (name data : List Nat) : List Nat :=
  strB "event: " ++ name ++ strB "\ndata: " ++ data ++ strB "\n\n"

/-- The fixed error SSE emitted when a `chunk` frame payload fails to decode. -/

def transformErrSSE : List Nat :=
  strB "event: error\ndata: " ++ [lbrace] ++
    strB "\"type\":\"error\",\"error\":" ++ [lbrace] ++
    strB "\"type\":\"transform_error\",\"message\":\"Failed to decode EventStream frame\"" ++
    [rbrace, rbrace] ++ strB "\n\n"

/-- The Bedrock model-stream error event names recognized by the transform. -/

def bedrockErrorEventNames : List (List Nat) :=
  [strB "modelStreamErrorException", strB "internalServerException",
   strB "modelTimeoutException", strB "throttlingException",
   strB "validationException", strB "serviceUnavailableException"]

/-- The Converse stream event names passed through with direct JSON payloads. -/

def converseEventNames : List (List Nat) :=
  [strB "messageStart", strB "contentBlockStart", strB "contentBlockDelta",
   strB "contentBlockStop", strB "messageStop", strB "metadata"]

/-- Per-frame body of the transform loop: classify the decoded frame by its
`:message-type` / `:event-type` headers and re-encode it as zero or more SSE
events (the byte strings enqueued on the controller). -/

def processFrame (f : ESFrame) : List (List Nat) :=
  let eventType := mapGet f.headers (strB ":event-type")
  let messageType := mapGet f.headers (strB ":message-type")
  if messageType = some (strB "exception") ∨ messageType = some (strB "error") then
    [sseBytes (strB "error") f.payload]
  else if eventType = some (strB "chunk") then
    match jsonParse f.payload with
    | .error _ => [transformErrSSE]
    | .ok wrapper =>
      let base64Bytes := jsOr ((getFieldJS wrapper (strB "chunk")).bind
          (fun c => getFieldJS c (strB "bytes"))) (getFieldJS wrapper (strB "bytes"))
      if truthyOpt base64Bytes then
        match atobJS (toJSString (base64Bytes.getD .jnull)) with
        | .error _ => [transformErrSSE]
        | .ok inner =>
          let anthropicEventType :=
            match jsonParse inner with
            | .ok parsed =>
              match getFieldJS parsed (strB "type") with
              | some tv => if jsTruthy tv then toJSString tv else strB "event"
              | none => strB "event"
            | .error _ => strB "event"
          [sseBytes anthropicEventType inner]
      else []
  else
    match eventType with
    | none => []
    | some et =>
      if et ∈ bedrockErrorEventNames then
        [strB "event: error\ndata: " ++ [lbrace] ++
          strB "\"type\":\"error\",\"error\":" ++ [lbrace] ++
          strB "\"type\":\"" ++ et ++ strB "\",\"message\":" ++ jsonQuote f.payload ++
          [rbrace, rbrace] ++ strB "\n\n"]
      else if et ∈ converseEventNames then
        [sseBytes et f.payload]
      else []

/-- The SSE byte strings produced for a list of decoded frames. -/

def sseOfFrames (fs : List ESFrame) : List (List Nat) := fs.flatMap processFrame

-- ===========================================================================
-- Drain case lemmas
-- ===========================================================================

def c7buf : List Nat :=
  [0, 0, 0, 20, 0, 0, 0, 3, 0, 0, 0, 0, 0, 200, 77, 88, 0, 0, 0, 0]

/-- Witness for C7 at the concrete frame `c7buf`. -/

def c10frame : ESFrame :=
  ⟨[(strB ":event-type", strB "chunk")], strB "\x7b\"foo\":1\x7d"⟩

/-- Witness for C10 at the concrete frame `c10frame`. -/

def c1demo : List Nat :=
  [0, 0, 0, 16, 0, 0, 0, 0, 0, 0, 0, 0, 0, 0, 0, 0,
   0, 0, 0, 16, 0, 0, 0, 0, 0, 0, 0, 0, 0, 0, 0, 0]

/-- Witness for C1 at a concrete two-frame stream fed one byte at a time. -/

def cxStream : List Nat :=
  [0, 0, 0, 16, 0, 0, 0, 10, 0, 0, 0, 0, 3, 97, 98, 99,
   7, 0, 5, 99, 104, 117, 110, 107]

/-- Counterexample to C1 as originally stated: for this 24-byte stream (one
16-byte frame whose declared header-block length overruns the frame, followed
by 8 trailing bytes), feeding one byte at a time decodes a frame with an empty
header map, while feeding the whole stream at once decodes a frame with one
header read out of the overrunning header block — the decoded frame sequences
differ, so chunk-boundary independence fails for adversarial frames. -/

inductive TokenStopReason where
  | ok
  | okToolInvocations
  | outOfTokens
  | filterContent
deriving DecidableEq, Repr

/-- Particles emitted through the `IParticleTransmitter` interface, one
constructor per transmitter method the parser invokes. -/

inductive Particle where
  | textAppend (s : List Nat)
  | toolCallStart (id name : List Nat)
  | toolCallArgAppend (id args : List Nat)
  | partEnd
  | stopReason (r : TokenStopReason)
  | metricsUpdate (tin tout : Int) (dtInner : Option Int) (dtAll : Int)
  | dialectEnded
  | terminatingIssue (msg : List Nat)
deriving DecidableEq, Repr

/-- The two terminal particle kinds (stream-ended / terminating-issue). -/

def isTerminal (p : Particle) : Bool :=
  match p with
  | .dialectEnded => true
  | .terminatingIssue _ => true
  | _ => false

/-- A stop-reason particle test. -/

def isStopReasonParticle (p : Particle) : Bool :=
  match p with
  | .stopReason _ => true
  | _ => false

/-- Per-call parser state: the error latch and the currently open tool id. -/

structure BCState where
  hasErrored : Bool
  currentToolUseId : Option (List Nat)
deriving DecidableEq, Repr

/-- Parser state at creation. -/

def initBCState : BCState := ⟨false, none⟩

/-- One SSE event fed to the parser: `eventData`, optional `eventName`, and
the wall-clock offset (`Date.now() - parserCreationTimestamp`) at handling
time, used only for the `dtAll` metric. -/

structure BCEvent where
  data : List Nat
  name : Option (List Nat)
  tNow : Int
deriving DecidableEq, Repr

/-- `_fromConverseStopReason` of the source. -/

def fromConverseStopReason (s : List Nat) : Option TokenStopReason :=
  if s = strB "end_turn" ∨ s = strB "stop_sequence" then some .ok
  else if s = strB "tool_use" then some .okToolInvocations
  else if s = strB "max_tokens" then some .outOfTokens
  else if s = strB "guardrail_intervened" ∨ s = strB "content_filtered" then some .filterContent
  else none

-- Validators for the zod schemas of bedrock-converse.wiretypes.ts.

/-- `z.object` guard: accept plain objects only. -/

def asObj (v : JValue) : Except String (List (List Nat × JValue)) :=
  match v with
  | .jobj fs => .ok fs
  | _ => .error "expected object"

/-- Required `z.string()` field. -/

def reqStrField (v : JValue) (k : List Nat) : Except String (List Nat) :=
  match getFieldJS v k with
  | some (.jstr s) => .ok s
  | _ => .error "expected string field"

/-- Required `z.number()` field. -/

def reqNumField (v : JValue) (k : List Nat) : Except String Int :=
  match getFieldJS v k with
  | some (.jnum n) => .ok n
  | _ => .error "expected number field"

/-- Optional `z.number().optional()` field. -/

def optNumField (v : JValue) (k : List Nat) : Except String (Option Int) :=
  match getFieldJS v k with
  | none => .ok none
  | some (.jnum n) => .ok (some n)
  | some _ => .error "expected optional number field"

/-- `event_MessageStart_schema`: `{ role: z.string() }`. -/

def valMessageStart (v : JValue) : Except String (List Nat) :=
  match asObj v with
  | .error m => .error m
  | .ok _ => reqStrField v (strB "role")

/-- `event_ContentBlockStart_schema`: `contentBlockIndex` plus a `start` that
is either `{ toolUse: { toolUseId, name } }` or any plain object (the zod
union tries the toolUse variant first, then the empty-object variant). -/

def valContentBlockStart (v : JValue) :
    Except String (Int × Option (List Nat × List Nat)) :=
  match asObj v with
  | .error m => .error m
  | .ok _ =>
    match reqNumField v (strB "contentBlockIndex") with
    | .error m => .error m
    | .ok idx =>
      match getFieldJS v (strB "start") with
      | none => .error "missing start"
      | some sv =>
        match asObj sv with
        | .error m => .error m
        | .ok _ =>
          match getFieldJS sv (strB "toolUse") with
          | some tu =>
            match reqStrField tu (strB "toolUseId"), reqStrField tu (strB "name") with
            | .ok id, .ok nm => .ok (idx, some (id, nm))
            | _, _ => .ok (idx, none)
          | none => .ok (idx, none)

/-- The two delta shapes of `event_ContentBlockDelta_schema`. -/

inductive BCDelta where
  | dtext (s : List Nat)
  | dtool (input : List Nat)
deriving DecidableEq, Repr

/-- `event_ContentBlockDelta_schema`: `contentBlockIndex` plus a `delta` that
is `{ text: z.string() }` or `{ toolUse: { input: z.string() } }`. -/

def valContentBlockDelta (v : JValue) : Except String (Int × BCDelta) :=
  match asObj v with
  | .error m => .error m
  | .ok _ =>
    match reqNumField v (strB "contentBlockIndex") with
    | .error m => .error m
    | .ok idx =>
      match getFieldJS v (strB "delta") with
      | none => .error "missing delta"
      | some dv =>
        match asObj dv with
        | .error m => .error m
        | .ok _ =>
          match reqStrField dv (strB "text") with
          | .ok s => .ok (idx, .dtext s)
          | .error _ =>
            match getFieldJS dv (strB "toolUse") with
            | some tu =>
              match reqStrField tu (strB "input") with
              | .ok inp => .ok (idx, .dtool inp)
              | .error m => .error m
            | none => .error "bad delta"

/-- `event_ContentBlockStop_schema`: `{ contentBlockIndex: z.number() }`. -/

def valContentBlockStop (v : JValue) : Except String Int :=
  match asObj v with
  | .error m => .error m
  | .ok _ => reqNumField v (strB "contentBlockIndex")

/-- `event_MessageStop_schema`: `stopReason` is an enum-or-string, so any
string value passes validation. -/

def valMessageStop (v : JValue) : Except String (List Nat) :=
  match asObj v with
  | .error m => .error m
  | .ok _ => reqStrField v (strB "stopReason")

/-- `event_Metadata_schema`: required `usage` block (with optional extra
token counters) and optional `metrics.latencyMs`. -/

def valMetadata (v : JValue) : Except String (Int × Int × Option Int) :=
  match asObj v with
  | .error m => .error m
  | .ok _ =>
    match getFieldJS v (strB "usage") with
    | none => .error "missing usage"
    | some uv =>
      match asObj uv with
      | .error m => .error m
      | .ok _ =>
        match reqNumField uv (strB "inputTokens") with
        | .error msgIn => .error msgIn
        | .ok tin =>
          match reqNumField uv (strB "outputTokens") with
          | .error msgOut => .error msgOut
          | .ok tout =>
            match optNumField uv (strB "totalTokens") with
            | .error msgTot => .error msgTot
            | .ok _ =>
              match optNumField uv (strB "cacheReadInputTokens") with
              | .error msgCr => .error msgCr
              | .ok _ =>
                match optNumField uv (strB "cacheWriteInputTokens") with
                | .error msgCw => .error msgCw
                | .ok _ =>
                  match getFieldJS v (strB "metrics") with
                  | none => .ok (tin, tout, none)
                  | some mv =>
                    match asObj mv with
                    | .error msgMv => .error msgMv
                    | .ok _ =>
                      match reqNumField mv (strB "latencyMs") with
                      | .ok l => .ok (tin, tout, some l)
                      | .error msgL => .error msgL

/-- Parse-failure path of the `catch` block: latch the error flag and emit
one terminating-issue particle carrying the error message. -/

def bcErrorOut (st : BCState) (m : String) : BCState × List Particle :=
  ({ st with hasErrored := true },
   [.terminatingIssue (strB "Bedrock Converse parse error: " ++ strB m)])

/-- The parser closure returned by `createBedrockConverseStreamParser`: one
`handle(eventData, eventName)` call. Once the error latch is set, every call
is a no-op; a JSON-parse or schema-validation failure latches the error and
emits exactly one terminating-issue particle. -/

def handleEvent (st : BCState) (ev : BCEvent) : BCState × List Particle :=
  if st.hasErrored then (st, [])
  else
    match jsonParse ev.data with
    | .error m => bcErrorOut st m
    | .ok parsed =>
      match ev.name with
      | some nm =>
        if nm = strB "messageStart" then
          match valMessageStart parsed with
          | .error m => bcErrorOut st m
          | .ok _role => (st, [])
        else if nm = strB "contentBlockStart" then
          match valContentBlockStart parsed with
          | .error m => bcErrorOut st m
          | .ok (_idx, some (id, fname)) =>
            ({ st with currentToolUseId := some id }, [.toolCallStart id fname])
          | .ok (_idx, none) => (st, [])
        else if nm = strB "contentBlockDelta" then
          match valContentBlockDelta parsed with
          | .error m => bcErrorOut st m
          | .ok (_idx, .dtext s) => (st, [.textAppend s])
          | .ok (_idx, .dtool inp) =>
            match st.currentToolUseId with
            | some id => (st, [.toolCallArgAppend id inp])
            | none => (st, [])
        else if nm = strB "contentBlockStop" then
          match valContentBlockStop parsed with
          | .error m => bcErrorOut st m
          | .ok _ => ({ st with currentToolUseId := none }, [.partEnd])
        else if nm = strB "messageStop" then
          match valMessageStop parsed with
          | .error m => bcErrorOut st m
          | .ok sr =>
            (st, (match fromConverseStopReason sr with
                  | some r => [.stopReason r]
                  | none => []) ++ [.dialectEnded])
        else if nm = strB "metadata" then
          match valMetadata parsed with
          | .error m => bcErrorOut st m
          | .ok (tin, tout, lat) =>
            (st, [.metricsUpdate tin tout
              (match lat with
               | some l => if l ≠ 0 then some l else none
               | none => none) ev.tNow])
        else (st, [])
      | none => (st, [])

/-- Modelled from the spec: the dispatcher and `ChatGenerateTransmitter`
(`chatGenerate.dispatch` / `ChatGenerateTransmitter.ts`, not under src/)
feed demuxed events to the parser in arrival order and stop forwarding once
a terminal particle has been produced, so that "a call either completes with
stream-ended or explains itself with terminating-issue" (spec §4.5, §6, §7). -/

def runParserLoop : BCState → List BCEvent → List Particle
  | _, [] => []
  | st, e :: es =>
    let r := handleEvent st e
    r.2 ++ (if r.2.any isTerminal then [] else runParserLoop r.1 es)

/-- Whether a single event, handled in a clean state, produces a terminal
particle (a property of the event alone). -/

def emitsTerminal (e : BCEvent) : Bool := (handleEvent initBCState e).2.any isTerminal

def c2events : List BCEvent :=
  [⟨strB "\x7b\"usage\":\x7b\"inputTokens\":3,\"outputTokens\":4\x7d\x7d", some (strB "metadata"), 7⟩,
   ⟨strB "\x7b\"stopReason\":\"end_turn\"\x7d", some (strB "messageStop"), 9⟩,
   ⟨strB "\x7b\"contentBlockIndex\":0,\"delta\":\x7b\"text\":\"hi\"\x7d\x7d", some (strB "contentBlockDelta"), 11⟩]

/-- Witness for C2 at `c2events`. -/

def c5UnknownStopEvent : BCEvent :=
  ⟨strB "\x7b\"stopReason\":\"beep\"\x7d", some (strB "messageStop"), 0⟩

/-- Counterexample to C5 as originally stated: a messageStop whose
stop-reason string is unrecognized yields NO stop-reason particle at all
(only the terminal stream-ended particle), rather than a particle from the
canonical set. -/

inductive AixRole where
  | user
  | model
  | tool
deriving DecidableEq, Repr

/-- Tool invocation payload of a `tool_invocation` part. -/

inductive AixToolInvocation where
  | function_call (name : List Nat) (args : Option (List Nat))
  | code_execution
deriving Repr

/-- Tool response payload of a `tool_response` part. -/

inductive AixToolResponse where
  | function_call (result : List Nat)
  | code_execution (result : List Nat)
deriving Repr

/-- The `error` field of a tool response: absent, a string, or a boolean. -/

inductive AixErrField where
  | noE
  | sE (s : List Nat)
  | bE (b : Bool)
deriving Repr

/-- JS truthiness of the tool-response error field. -/

def aixErrTruthy (e : AixErrField) : Bool :=
  match e with
  | .noE => false
  | .sE s => decide (s ≠ [])
  | .bE b => b

/-- Message parts of the canonical AIX request, as consumed by the adapter.
The `doc` and `meta_in_reference_to` payloads carry the string produced by
`approxDocPart_To_String` / `approxInReferenceTo_To_XMLString`
(adapters.common, not under src/ — modelled from the spec as the
already-flattened text approximations of those parts). -/

inductive AixPart where
  | text (t : List Nat)
  | doc (d : List Nat)
  | inline_image (mimeType : List Nat) (base64 : List Nat)
  | inline_audio
  | tool_invocation (id : List Nat) (invocation : AixToolInvocation)
  | ma
  | meta_in_reference_to (irt : List Nat)
  | meta_cache_control
  | tool_response (id : List Nat) (response : AixToolResponse) (error : AixErrField)
deriving Repr

/-- One canonical chat message. `flushMarker` — Modelled from the spec: the
explicit "flush" marker detected by `aixSpillShallFlush` (adapters.common,
not under src/) that forces a turn boundary even under same-role batching. -/

structure AixMessage where
  role : AixRole
  parts : List AixPart
  flushMarker : Bool
deriving Repr

/-- Modelled from the spec: `aixSpillShallFlush` (adapters.common, not under
src/) reports whether a canonical message carries the explicit flush marker. -/

def aixSpillShallFlush (msg : AixMessage) : Bool := msg.flushMarker

/-- Sampling parameters of the AIX model record used by the adapter;
`temperature` distinguishes unset (`none`) from explicit null (`some none`). -/

structure AixModel where
  maxTokens : Option Int
  temperature : Option (Option Int)
  topP : Option Int
deriving DecidableEq, Repr

/-- Optional `input_schema` of a function-call tool definition. -/

structure AixInputSchema where
  properties : Option JValue
  required : Option (List (List Nat))
deriving Repr

/-- Tool definitions of the canonical request. -/

inductive AixToolDefinition where
  | function_call (name : List Nat) (description : Option (List Nat))
      (input_schema : Option AixInputSchema)
  | code_execution
deriving Repr

/-- Tool-choice policy of the canonical request. -/

inductive AixToolsPolicy where
  | auto
  | any
  | function_call (name : List Nat)
deriving Repr

/-- The canonical chat-generate request shape consumed by the adapter (after
the upstream `aixSpillSystemToUser` normalization, which is not under src/). -/

structure AixChatGenerate where
  systemMessage : Option (List AixPart)
  chatSequence : List AixMessage
  tools : Option (List AixToolDefinition)
  toolsPolicy : Option AixToolsPolicy
deriving Repr

/-- Wire roles of Converse messages. -/

inductive ConverseRole where
  | user
  | assistant
deriving DecidableEq, Repr

/-- Wire image formats of the Converse API. -/

inductive ConverseImageFormat where
  | png
  | jpeg
  | gif
  | webp
deriving DecidableEq, Repr

/-- Wire content blocks of a Converse message. `toolResultIsError` models the
presence of `status: 'error'`. -/

inductive ConverseContentBlock where
  | text (t : List Nat)
  | image (format : ConverseImageFormat) (bytes : List Nat)
  | toolUse (toolUseId name : List Nat) (input : JValue)
  | toolResult (toolUseId : List Nat) (content : List (List Nat)) (isError : Bool)
deriving Repr

/-- One wire message of the Converse request. -/

structure ConverseMessage where
  role : ConverseRole
  content : List ConverseContentBlock
deriving Repr

/-- The wire `inferenceConfig` object (fields present only when assigned). -/

structure ConverseInferenceConfig where
  maxTokens : Option Int
  temperature : Option Int
  topP : Option Int
deriving DecidableEq, Repr

/-- One wire `toolSpec` entry. -/

structure ConverseToolSpec where
  name : List Nat
  description : Option (List Nat)
  schemaProperties : JValue
  schemaRequired : Option (List (List Nat))
deriving Repr

/-- The wire `toolChoice` variants. -/

inductive ConverseToolChoice where
  | auto
  | any
  | tool (name : List Nat)
deriving Repr

/-- The wire `toolConfig` object. -/

structure ConverseToolConfig where
  tools : List ConverseToolSpec
  toolChoice : Option ConverseToolChoice
deriving Repr

/-- The Converse wire request produced by the adapter. -/

structure ConverseRequest where
  system : Option (List (List Nat))
  messages : List ConverseMessage
  inferenceConfig : Option ConverseInferenceConfig
  toolConfig : Option ConverseToolConfig
deriving Repr

/-- `String.prototype.split` on a one-character separator. -/

def splitOn (sep : Nat) : List Nat → List (List Nat)
  | [] => [[]]
  | c :: cs =>
    let r := splitOn sep cs
    if c = sep then [] :: r
    else
      match r with
      | h :: t => (c :: h) :: t
      | [] => [[c]]

/-- `mimeType.split('/')[1]`. -/

def splitSlashSecond (s : List Nat) : Option (List Nat) := (splitOn 47 s).get? 1

/-- `_mimeToConverseFormat` of the source: map known mime subtypes, normalize
`jpg` to `jpeg`, and fall back to `jpeg` for anything else. -/

def mimeToConverseFormat (mimeType : List Nat) : ConverseImageFormat :=
  match splitSlashSecond mimeType with
  | some s =>
    if s = strB "png" then .png
    else if s = strB "jpeg" ∨ s = strB "jpg" then .jpeg
    else if s = strB "gif" then .gif
    else if s = strB "webp" then .webp
    else .jpeg
  | none => .jpeg

/-- The user-message arm of `_generateConverseContentBlocks`, per part. -/

def userPartBlocks (p : AixPart) : Except String (List (ConverseRole × ConverseContentBlock)) :=
  match p with
  | .text t => .ok [(.user, .text t)]
  | .inline_image mime b64 => .ok [(.user, .image (mimeToConverseFormat mime) b64)]
  | .doc d => .ok [(.user, .text d)]
  | .meta_in_reference_to irt => .ok (if irt ≠ [] then [(.user, .text irt)] else [])
  | .meta_cache_control => .ok []
  | _ => .error "Unsupported part type in User message"

/-- The model-message arm of `_generateConverseContentBlocks`, per part. -/

def modelPartBlocks (p : AixPart) : Except String (List (ConverseRole × ConverseContentBlock)) :=
  match p with
  | .text t => .ok [(.assistant, .text t)]
  | .inline_audio => .ok []
  | .inline_image _ _ => .ok []
  | .tool_invocation id inv =>
    match inv with
    | .function_call nm args =>
      let inputObj : JValue :=
        match args with
        | none => .jobj []
        | some a =>
          match jsonParse a with
          | .ok v => v
          | .error _ => .jobj []
      .ok [(.assistant, .toolUse id nm inputObj)]
    | .code_execution => .ok []
  | .ma => .ok []
  | .meta_cache_control => .ok []
  | _ => .error "Unsupported part type in Model message"

/-- The tool-message arm of `_generateConverseContentBlocks`, per part. -/

def toolPartBlocks (p : AixPart) : Except String (List (ConverseRole × ConverseContentBlock)) :=
  match p with
  | .tool_response id resp err =>
    let toolErrorPrefix : List Nat :=
      if aixErrTruthy err then
        match err with
        | .sE s => strB "[ERROR] " ++ s ++ strB " - "
        | _ => strB "[ERROR] "
      else []
    match resp with
    | .function_call result =>
      .ok [(.user, .toolResult id [toolErrorPrefix ++ result] (aixErrTruthy err))]
    | .code_execution result =>
      .ok [(.user, .toolResult id [toolErrorPrefix ++ result] (aixErrTruthy err))]
  | .meta_cache_control => .ok []
  | _ => .error "Unsupported part type in Tool message"

/-- `_generateConverseContentBlocks` of the source: the per-role generator of
`(role, content)` wire blocks for one canonical message (empty messages yield
nothing). -/

def generateConverseContentBlocks (msg : AixMessage) :
    Except String (List (ConverseRole × ConverseContentBlock)) :=
  if msg.parts.length < 1 then .ok []
  else
    match msg.role with
    | .user => (msg.parts.mapM userPartBlocks).map List.flatten
    | .model => (msg.parts.mapM modelPartBlocks).map List.flatten
    | .tool => (msg.parts.mapM toolPartBlocks).map List.flatten

/-- The mutable `(chatMessages, currentMessage)` pair of the merge loop. -/

structure MergeState where
  acc : List ConverseMessage
  cur : Option ConverseMessage
deriving Repr

/-- Finalize: push the current message if one is open. -/

def pushCur (st : MergeState) : MergeState :=
  match st.cur with
  | some m => ⟨st.acc ++ [m], none⟩
  | none => st

/-- Add one generated block: start a new wire message when none is open or
the resolved role changes, else append to the current one. -/

def addBlock (st : MergeState) (rb : ConverseRole × ConverseContentBlock) : MergeState :=
  match st.cur with
  | some m =>
    if m.role = rb.1 then ⟨st.acc, some ⟨m.role, m.content ++ [rb.2]⟩⟩
    else ⟨st.acc ++ [m], some ⟨rb.1, [rb.2]⟩⟩
  | none => ⟨st.acc, some ⟨rb.1, [rb.2]⟩⟩

/-- One canonical message of the merge loop: fold its blocks, then flush if
the message carries the explicit flush marker. -/

def convStep (st : MergeState) (msg : AixMessage) : Except String MergeState :=
  match generateConverseContentBlocks msg with
  | .error m => .error m
  | .ok blocks =>
    let st' := blocks.foldl addBlock st
    .ok (if aixSpillShallFlush msg then pushCur st' else st')

/-- The chat-message transformation of `aixToBedrockConverse` (lines 50-71):
merge generated blocks into wire messages. -/

def converseChatMessages (msgs : List AixMessage) : Except String (List ConverseMessage) :=
  match msgs.foldlM convStep ⟨[], none⟩ with
  | .error m => .error m
  | .ok st => .ok (pushCur st).acc

/-- The system-message conversion of `aixToBedrockConverse`, per part. -/

def systemPartBlocks (p : AixPart) : Except String (List (List Nat)) :=
  match p with
  | .text t => .ok [t]
  | .doc d => .ok [d]
  | .inline_image _ _ => .error "Bedrock Converse: images cannot be in system messages"
  | .meta_cache_control => .ok []
  | _ => .error "Unsupported part type in System message"

/-- Flatten the temperature field per the adapter's
`!== undefined && !== null` guard. -/

def tempFlat (t : Option (Option Int)) : Option Int :=
  match t with
  | some (some x) => some x
  | _ => none

/-- `_toConverseTools`: map function-call tools, drop code-execution tools. -/

def toConverseTools (itds : List AixToolDefinition) : List ConverseToolSpec :=
  itds.foldl (fun acc itd =>
    match itd with
    | .function_call nm descr ischema =>
      acc ++ [⟨nm,
        (match descr with
         | some d => if d ≠ [] then some d else none
         | none => none),
        (match ischema with
         | some is =>
           match is.properties with
           | some p => if jsTruthy p then p else .jobj []
           | none => .jobj []
         | none => .jobj []),
        (match ischema with
         | some is => is.required
         | none => none)⟩]
    | .code_execution => acc) []

/-- `_toConverseToolChoice`. -/

def toConverseToolChoice (itp : AixToolsPolicy) : ConverseToolChoice :=
  match itp with
  | .auto => .auto
  | .any => .any
  | .function_call nm => .tool nm

/-- `aixToBedrockConverse` of the source, on the normalized request (the
upstream `aixSpillSystemToUser` image spill, not under src/, has already been
applied to the input): convert system content, merge chat messages, copy only
the explicitly set sampling parameters, and map tool definitions/policy. -/

def aixToBedrockConverse (model : AixModel) (chatGenerate : AixChatGenerate) :
    Except String ConverseRequest :=
  match (match chatGenerate.systemMessage with
         | some parts =>
           if parts.length ≠ 0 then
             ((parts.mapM systemPartBlocks).map List.flatten).map
               (fun l => if l.length ≠ 0 then some l else none)
           else .ok none
         | none => .ok none : Except String (Option (List (List Nat)))) with
  | .error m => .error m
  | .ok systemContent =>
    match converseChatMessages chatGenerate.chatSequence with
    | .error m => .error m
    | .ok messages =>
      let inferenceConfig : ConverseInferenceConfig :=
        ⟨model.maxTokens, tempFlat model.temperature, model.topP⟩
      let icNonEmpty := inferenceConfig.maxTokens.isSome
        || inferenceConfig.temperature.isSome || inferenceConfig.topP.isSome
      let toolConfig : Option ConverseToolConfig :=
        match chatGenerate.tools with
        | some tds =>
          if tds.length ≠ 0 then
            let tools := toConverseTools tds
            if tools.length ≠ 0 then
              some ⟨tools, chatGenerate.toolsPolicy.map toConverseToolChoice⟩
            else none
          else none
        | none => none
      .ok ⟨systemContent, messages, if icNonEmpty then some inferenceConfig else none, toolConfig⟩

-- ===========================================================================
-- C8: sampling parameters copied only when explicitly set
-- ===========================================================================

/-- C8: the adapter copies maxTokens/temperature/topP into the wire
`inferenceConfig` exactly when they are explicitly set on the canonical model
(temperature additionally requires non-null), introduces no defaults, and
omits the `inferenceConfig` field entirely when no sampling parameter is
set. -/

def itemsOf (msgs : List AixMessage) :
    Except String (List (Option (ConverseRole × ConverseContentBlock))) :=
  (msgs.mapM (fun m => (generateConverseContentBlocks m).map
      (fun bs => bs.map some ++ if aixSpillShallFlush m then [none] else []))).map List.flatten

/-- Spec-side grouping, written from the claim's words: walk the resolved
block stream in order; a new wire message is started exactly when the
resolved role changes or a flush marker intervenes, and adjacent same-role
blocks are merged into the current wire message. -/

def specGroupAux :
    Option ConverseMessage → List (Option (ConverseRole × ConverseContentBlock)) →
      List ConverseMessage
  | cur, [] =>
    match cur with
    | some g => [g]
    | none => []
  | cur, none :: rest =>
    (match cur with
     | some g => [g]
     | none => []) ++ specGroupAux none rest
  | some g, some (r, c) :: rest =>
    if g.role = r then specGroupAux (some ⟨g.role, g.content ++ [c]⟩) rest
    else g :: specGroupAux (some ⟨r, [c]⟩) rest
  | none, some (r, c) :: rest => specGroupAux (some ⟨r, [c]⟩) rest

def c4msgs : List AixMessage :=
  [⟨.user, [.text (strB "a")], false⟩,
   ⟨.model, [.text (strB "b")], true⟩,
   ⟨.model, [.text (strB "c")], false⟩]

def c4req : ConverseRequest :=
  ⟨none, [⟨.user, [.text (strB "a")]⟩, ⟨.assistant, [.text (strB "b")]⟩,
    ⟨.assistant, [.text (strB "c")]⟩], none, none⟩

def c4its : List (Option (ConverseRole × ConverseContentBlock)) :=
  [some (.user, .text (strB "a")), some (.assistant, .text (strB "b")), none,
   some (.assistant, .text (strB "c"))]

/-- Witness for C4: a user message, then a flush-marked model message, then
another model message (the flush splits two same-role wire messages). -/

theorem stepFrame_frame_bounds {b : List Nat} {f : ESFrame} {n : Nat} {l : Bool}
    (h : stepFrame b = .frame f n l) : MIN_MESSAGE_LENGTH ≤ n ∧ n ≤ b.length := by
  simp only [stepFrame] at h
  split at h
  · exact absurd h (by simp)
  · split at h
    · exact absurd h (by simp)
    · split at h
      · exact absurd h (by simp)
      · split at h
        · exact absurd h (by simp)
        · simp only [StepRes.frame.injEq] at h
          omega

/-- Fuel-bounded body of the `while (offset < buffer.length)` loop of the
transform: parse as many complete frames as possible at the front of the
buffer. Any fuel above the buffer length behaves identically (each parsed
frame consumes at least 16 bytes). -/

theorem drainAux_fuel_irrel :
    ∀ (fuel fuel' : Nat) (b : List Nat), b.length < fuel → b.length < fuel' →
      drainAux fuel b = drainAux fuel' b := by
  intro fuel
  induction fuel with
  | zero => intro fuel' b h _; omega
  | succ f ih =>
    intro fuel' b hb hb'
    match fuel', hb' with
    | f' + 1, _ =>
      simp only [drainAux]
      match hstep : stepFrame b with
      | .needMore => rfl
      | .fatal tl => rfl
      | .viewErr => rfl
      | .frame fr n l =>
        have hbnd := stepFrame_frame_bounds hstep
        have hd : (b.drop n).length < f := by
          simp only [List.length_drop]
          have : MIN_MESSAGE_LENGTH = 16 := rfl
          omega
        have hd' : (b.drop n).length < f' := by
          simp only [List.length_drop]
          have : MIN_MESSAGE_LENGTH = 16 := rfl
          omega
        simp only [ih f' (b.drop n) hd hd']

/-- Result of feeding a sequence of chunks through the transform: all decoded
frames in order, then the final buffer, or the error that aborted the stream. -/

theorem drain_needMore {b : List Nat} (h : stepFrame b = .needMore) :
    drain b = ⟨[], .ok b, true⟩ := by
  unfold drain
  simp only [drainAux, h]

theorem drain_fatal {b : List Nat} {tl : Nat} (h : stepFrame b = .fatal tl) :
    drain b = ⟨[], .error (.badLength tl), true⟩ := by
  unfold drain
  simp only [drainAux, h]

theorem drain_viewErr {b : List Nat} (h : stepFrame b = .viewErr) :
    drain b = ⟨[], .error .viewOut, false⟩ := by
  unfold drain
  simp only [drainAux, h]

theorem drain_frame {b : List Nat} {f : ESFrame} {n : Nat} {l : Bool}
    (h : stepFrame b = .frame f n l) :
    drain b = ⟨f :: (drain (b.drop n)).frames, (drain (b.drop n)).final,
      l && (drain (b.drop n)).loc⟩ := by
  have hbnd := stepFrame_frame_bounds h
  have h16 : MIN_MESSAGE_LENGTH = 16 := rfl
  rw [h16] at hbnd
  have h1 : drain b = ⟨f :: (drainAux b.length (b.drop n)).frames,
      (drainAux b.length (b.drop n)).final, l && (drainAux b.length (b.drop n)).loc⟩ := by
    unfold drain
    simp only [drainAux, h]
  rw [h1]
  have h2 : drainAux b.length (b.drop n) = drain (b.drop n) := by
    unfold drain
    exact drainAux_fuel_irrel _ _ _ (by simp only [List.length_drop]; omega) (by omega)
  rw [h2]

-- ===========================================================================
-- C3: out-of-bounds declared total length is fatal and stops all parsing
-- ===========================================================================

/-- C3: whenever the demultiplexer reads a frame prelude (12 bytes available)
whose declared total length is below the 16-byte minimum or above the 25 MB
maximum, it fails fatally with the malformed-length error carrying that
length, and no frame at or after that position of the buffer is parsed or
emitted (the drain from that position yields zero frames and the error). -/

theorem c3_bad_total_length_fatal (b : List Nat)
    (hlen : PRELUDE_LENGTH ≤ b.length)
    (hbad : be32At b 0 < MIN_MESSAGE_LENGTH ∨ MAX_MESSAGE_LENGTH < be32At b 0) :
    drain b = ⟨[], .error (.badLength (be32At b 0)), true⟩ := by
  apply drain_fatal
  simp only [stepFrame]
  rw [if_neg (by omega), if_pos hbad]

/-- Witness for C3 at a concrete buffer (declared total length 0). -/

theorem c3_bad_total_length_fatal_witness :
    drain [0, 0, 0, 0, 0, 0, 0, 0, 0, 0, 0, 0] =
      ⟨[], .error (.badLength 0), true⟩ := by
  have h := c3_bad_total_length_fatal [0, 0, 0, 0, 0, 0, 0, 0, 0, 0, 0, 0]
    (by decide) (by decide)
  exact h

-- ===========================================================================
-- C7: unknown header value type stops header parsing; payload still recovered
-- ===========================================================================

/-- The payload of any successfully parsed frame is the byte range between
the end of the declared header block and the trailing checksum, computed only
from the prelude's declared lengths. -/

theorem stepFrame_payload_eq {b : List Nat} {f : ESFrame} {n : Nat} {l : Bool}
    (hstep : stepFrame b = .frame f n l) :
    f.payload = sliceB b (PRELUDE_LENGTH + be32At b 4) (be32At b 0 - MESSAGE_CRC_LENGTH) := by
  simp only [stepFrame] at hstep
  split at hstep
  · exact absurd hstep (by simp)
  · split at hstep
    · exact absurd hstep (by simp)
    · split at hstep
      · exact absurd hstep (by simp)
      · split at hstep
        · exact absurd hstep (by simp)
        · simp only [StepRes.frame.injEq] at hstep
          rw [← hstep.1]

/-- Reaching a header whose value-type byte is not one of the Smithy types
0–9 makes the header scan return the headers accumulated so far, unchanged. -/

theorem parseHeadersAux_unknown_stop (b : List Nat) (nn hEnd fuel ho : Nat)
    (acc : List (List Nat × List Nat)) (nameLen vt : Nat)
    (hho : ho < hEnd)
    (hname : byteAt b ho = some nameLen)
    (hvt : byteAt b (ho + 1 + nameLen) = some vt)
    (hunknown : 10 ≤ vt) :
    parseHeadersAux b nn hEnd (fuel + 1) ho acc
      = .ok (acc, decide (ho + 1 + nameLen ≤ nn) && decide (ho + 1 + nameLen < nn)) := by
  have hn7 : ¬(vt = 7) := by omega
  have hn6 : ¬(vt = 6) := by omega
  have hn01 : ¬(vt = 0 ∨ vt = 1) := by omega
  have hn2 : ¬(vt = 2) := by omega
  have hn3 : ¬(vt = 3) := by omega
  have hn4 : ¬(vt = 4) := by omega
  have hn58 : ¬(vt = 5 ∨ vt = 8) := by omega
  have hn9 : ¬(vt = 9) := by omega
  have hnho : ¬(hEnd ≤ ho) := by omega
  simp only [parseHeadersAux, hname, hvt]
  rw [if_neg hnho, if_neg hn7, if_neg hn6, if_neg hn01, if_neg hn2, if_neg hn3,
    if_neg hn4, if_neg hn58, if_neg hn9]

/-- C7: for a complete frame containing a header with an unknown value type
(not one of the Smithy types 0–9), the header scan stops at that header and
adds nothing more, yet the frame's payload is still extracted as the bytes
between the end of the declared header block and the trailing checksum,
because the payload bounds come from the prelude's declared header-block
length and not from the header-parse cursor. -/

theorem c7_unknown_header_type_payload_recovered
    (b : List Nat) (f : ESFrame) (n : Nat) (l : Bool)
    (nn hEnd fuel ho : Nat) (acc : List (List Nat × List Nat)) (nameLen vt : Nat)
    (hstep : stepFrame b = .frame f n l)
    (hho : ho < hEnd)
    (hname : byteAt b ho = some nameLen)
    (hvt : byteAt b (ho + 1 + nameLen) = some vt)
    (hunknown : 10 ≤ vt) :
    f.payload = sliceB b (PRELUDE_LENGTH + be32At b 4) (be32At b 0 - MESSAGE_CRC_LENGTH)
    ∧ parseHeadersAux b nn hEnd (fuel + 1) ho acc
        = .ok (acc, decide (ho + 1 + nameLen ≤ nn) && decide (ho + 1 + nameLen < nn)) :=
  ⟨stepFrame_payload_eq hstep,
   parseHeadersAux_unknown_stop b nn hEnd fuel ho acc nameLen vt hho hname hvt hunknown⟩

/-- A concrete 20-byte frame whose single header has unknown value type 200;
its payload is the single byte 88. -/

theorem c7_unknown_header_type_payload_recovered_witness :
    (⟨[], [88]⟩ : ESFrame).payload
        = sliceB c7buf (PRELUDE_LENGTH + be32At c7buf 4) (be32At c7buf 0 - MESSAGE_CRC_LENGTH)
    ∧ parseHeadersAux c7buf 20 15 1 12 []
        = .ok ([], decide (12 + 1 + 0 ≤ 20) && decide (12 + 1 + 0 < 20)) :=
  c7_unknown_header_type_payload_recovered c7buf ⟨[], [88]⟩ 20 true 20 15 0 12 [] 0 200
    (by decide) (by decide) (by decide) (by decide) (by decide)

-- ===========================================================================
-- C10: a 'chunk' frame whose payload lacks chunk.bytes and bytes emits nothing
-- ===========================================================================

/-- C10: a decoded frame with event type `chunk` whose payload parses as JSON
but carries neither a `chunk.bytes` field nor a `bytes` field produces no SSE
output event at all (no data event and no error event), and the frames after
it are processed exactly as if it were absent. -/

theorem c10_chunk_without_bytes_silent
    (f : ESFrame) (w : JValue) (fs : List ESFrame)
    (hmt1 : mapGet f.headers (strB ":message-type") ≠ some (strB "exception"))
    (hmt2 : mapGet f.headers (strB ":message-type") ≠ some (strB "error"))
    (het : mapGet f.headers (strB ":event-type") = some (strB "chunk"))
    (hparse : jsonParse f.payload = .ok w)
    (hnochunk : (getFieldJS w (strB "chunk")).bind (fun c => getFieldJS c (strB "bytes")) = none)
    (hnobytes : getFieldJS w (strB "bytes") = none) :
    processFrame f = [] ∧ sseOfFrames (f :: fs) = sseOfFrames fs := by
  have hpf : processFrame f = [] := by
    simp only [processFrame, het, hparse, hnochunk, hnobytes]
    rw [if_neg (by simp [hmt1, hmt2])]
    simp [jsOr, truthyOpt]
  exact ⟨hpf, by simp [sseOfFrames, hpf]⟩

/-- A concrete `chunk` frame whose JSON payload has no bytes fields. -/

theorem c10_chunk_without_bytes_silent_witness :
    processFrame c10frame = []
    ∧ sseOfFrames [c10frame, ⟨[], []⟩] = sseOfFrames [(⟨[], []⟩ : ESFrame)] :=
  c10_chunk_without_bytes_silent c10frame (.jobj [(strB "foo", .jnum 1)]) [⟨[], []⟩]
    (by decide) (by decide) (by decide) (by rfl) (by rfl) (by rfl)

-- ===========================================================================
-- C1: chunk-boundary independence (locality lemmas, drain composition)
-- ===========================================================================

theorem byteAt_agree {b b' : List Nat} {n : Nat} (htake : b.take n = b'.take n)
    {i : Nat} (hi : i < n) : byteAt b i = byteAt b' i := by
  unfold byteAt
  rw [← @List.get?_take Nat b n i hi, htake, List.get?_take hi]

theorem getD_agree {b b' : List Nat} {n : Nat} (htake : b.take n = b'.take n)
    {i : Nat} (hi : i < n) : b.getD i 0 = b'.getD i 0 := by
  have h := byteAt_agree htake hi
  unfold byteAt at h
  show (b.get? i).getD 0 = (b'.get? i).getD 0
  rw [h]

theorem sliceB_take (b : List Nat) (n i j : Nat) (hj : j ≤ n) :
    sliceB (b.take n) i j = sliceB b i j := by
  unfold sliceB
  rw [List.drop_take, List.take_take]
  congr 1
  omega

theorem sliceB_agree {b b' : List Nat} {n : Nat} (htake : b.take n = b'.take n)
    {i j : Nat} (hj : j ≤ n) : sliceB b i j = sliceB b' i j := by
  rw [← sliceB_take b n i j hj, htake, sliceB_take b' n i j hj]

theorem u16At_agree {b b' : List Nat} {n : Nat} (htake : b.take n = b'.take n)
    (hn : n ≤ b.length) (hn' : n ≤ b'.length) {i : Nat} (hi : i + 2 ≤ n) :
    u16At b i = u16At b' i := by
  unfold u16At
  rw [if_pos (by omega), if_pos (by omega),
    getD_agree htake (by omega), getD_agree htake (by omega)]

theorem parseHeadersAux_agree {b b' : List Nat} {n hEnd : Nat}
    (hn : n ≤ b.length) (hn' : n ≤ b'.length) (htake : b.take n = b'.take n) :
    ∀ (fuel ho : Nat) (acc hdrs : List (List Nat × List Nat)),
      parseHeadersAux b n hEnd fuel ho acc = .ok (hdrs, true) →
      parseHeadersAux b' n hEnd fuel ho acc = .ok (hdrs, true) := by
  intro fuel
  induction fuel with
  | zero =>
    intro ho acc hdrs h
    simp [parseHeadersAux] at h
  | succ f ih =>
    intro ho acc hdrs h
    by_cases hho : hEnd ≤ ho
    · simp only [parseHeadersAux, if_pos hho] at h ⊢
      exact h
    · simp only [parseHeadersAux, if_neg hho] at h ⊢
      cases hb1 : byteAt b ho with
      | none => rw [hb1] at h; simp at h
      | some nameLen =>
        rw [hb1] at h
        simp only at h
        cases hb2 : byteAt b (ho + 1 + nameLen) with
        | none => rw [hb2] at h; simp at h
        | some vt =>
          rw [hb2] at h
          simp only at h
          by_cases h7 : vt = 7
          · rw [if_pos h7] at h
            cases hu : u16At b (ho + 1 + nameLen + 1) with
            | none => rw [hu] at h; simp at h
            | some len =>
              rw [hu] at h
              simp only at h
              cases hrec : parseHeadersAux b n hEnd f (ho + 1 + nameLen + 1 + 2 + len)
                  (mapSet acc (sliceB b (ho + 1) (ho + 1 + nameLen))
                    (sliceB b (ho + 1 + nameLen + 1 + 2) (ho + 1 + nameLen + 1 + 2 + len))) with
              | error e => rw [hrec] at h; simp at h
              | ok p =>
                obtain ⟨h0, fl⟩ := p
                rw [hrec] at h
                simp only [Except.ok.injEq, Prod.mk.injEq] at h
                obtain ⟨hh0, hflag⟩ := h
                simp only [Bool.and_eq_true, decide_eq_true_eq] at hflag
                obtain ⟨⟨⟨hc1, hc2⟩, hc3⟩, hfl⟩ := hflag
                have hlt1 : ho < n := by omega
                rw [← byteAt_agree htake hlt1, hb1]
                simp only
                rw [← byteAt_agree htake hc2, hb2]
                simp only
                rw [if_pos h7, ← u16At_agree htake hn hn' (by omega), hu]
                simp only
                rw [← sliceB_agree htake hc1, ← sliceB_agree htake hc3]
                have hrec' : parseHeadersAux b n hEnd f (ho + 1 + nameLen + 1 + 2 + len)
                    (mapSet acc (sliceB b (ho + 1) (ho + 1 + nameLen))
                      (sliceB b (ho + 1 + nameLen + 1 + 2) (ho + 1 + nameLen + 1 + 2 + len)))
                    = .ok (h0, true) := by rw [hrec, hfl]
                rw [ih _ _ _ hrec']
                simp [hh0, hc1, hc2, hc3]
          · by_cases h6 : vt = 6
            · rw [if_neg h7, if_pos h6] at h
              cases hu : u16At b (ho + 1 + nameLen + 1) with
              | none => rw [hu] at h; simp at h
              | some len =>
                rw [hu] at h
                simp only at h
                cases hrec : parseHeadersAux b n hEnd f (ho + 1 + nameLen + 1 + 2 + len) acc with
                | error e => rw [hrec] at h; simp at h
                | ok p =>
                  obtain ⟨h0, fl⟩ := p
                  rw [hrec] at h
                  simp only [Except.ok.injEq, Prod.mk.injEq] at h
                  obtain ⟨hh0, hflag⟩ := h
                  simp only [Bool.and_eq_true, decide_eq_true_eq] at hflag
                  obtain ⟨⟨⟨hc1, hc2⟩, hc3⟩, hfl⟩ := hflag
                  have hlt1 : ho < n := by omega
                  rw [← byteAt_agree htake hlt1, hb1]
                  simp only
                  rw [← byteAt_agree htake hc2, hb2]
                  simp only
                  rw [if_neg h7, if_pos h6, ← u16At_agree htake hn hn' (by omega), hu]
                  simp only
                  have hrec' : parseHeadersAux b n hEnd f (ho + 1 + nameLen + 1 + 2 + len) acc
                      = .ok (h0, true) := by rw [hrec, hfl]
                  rw [ih _ _ _ hrec']
                  simp [hh0, hc1, hc2, hc3]
            · by_cases h01 : vt = 0 ∨ vt = 1
              · rw [if_neg h7, if_neg h6, if_pos h01] at h
                cases hrec : parseHeadersAux b n hEnd f (ho + 1 + nameLen + 1) acc with
                | error e => rw [hrec] at h; simp at h
                | ok p =>
                  obtain ⟨h0, fl⟩ := p
                  rw [hrec] at h
                  simp only [Except.ok.injEq, Prod.mk.injEq] at h
                  obtain ⟨hh0, hflag⟩ := h
                  simp only [Bool.and_eq_true, decide_eq_true_eq] at hflag
                  obtain ⟨⟨hc1, hc2⟩, hfl⟩ := hflag
                  have hlt1 : ho < n := by omega
                  rw [← byteAt_agree htake hlt1, hb1]
                  simp only
                  rw [← byteAt_agree htake hc2, hb2]
                  simp only
                  rw [if_neg h7, if_neg h6, if_pos h01]
                  have hrec' : parseHeadersAux b n hEnd f (ho + 1 + nameLen + 1) acc
                      = .ok (h0, true) := by rw [hrec, hfl]
                  rw [ih _ _ _ hrec']
                  simp [hh0, hc1, hc2]
              · by_cases h2 : vt = 2
                · rw [if_neg h7, if_neg h6, if_neg h01, if_pos h2] at h
                  cases hrec : parseHeadersAux b n hEnd f (ho + 1 + nameLen + 1 + 1) acc with
                  | error e => rw [hrec] at h; simp at h
                  | ok p =>
                    obtain ⟨h0, fl⟩ := p
                    rw [hrec] at h
                    simp only [Except.ok.injEq, Prod.mk.injEq] at h
                    obtain ⟨hh0, hflag⟩ := h
                    simp only [Bool.and_eq_true, decide_eq_true_eq] at hflag
                    obtain ⟨⟨hc1, hc2⟩, hfl⟩ := hflag
                    have hlt1 : ho < n := by omega
                    rw [← byteAt_agree htake hlt1, hb1]
                    simp only
                    rw [← byteAt_agree htake hc2, hb2]
                    simp only
                    rw [if_neg h7, if_neg h6, if_neg h01, if_pos h2]
                    have hrec' : parseHeadersAux b n hEnd f (ho + 1 + nameLen + 1 + 1) acc
                        = .ok (h0, true) := by rw [hrec, hfl]
                    rw [ih _ _ _ hrec']
                    simp [hh0, hc1, hc2]
                · by_cases h3 : vt = 3
                  · rw [if_neg h7, if_neg h6, if_neg h01, if_neg h2, if_pos h3] at h
                    cases hrec : parseHeadersAux b n hEnd f (ho + 1 + nameLen + 1 + 2) acc with
                    | error e => rw [hrec] at h; simp at h
                    | ok p =>
                      obtain ⟨h0, fl⟩ := p
                      rw [hrec] at h
                      simp only [Except.ok.injEq, Prod.mk.injEq] at h
                      obtain ⟨hh0, hflag⟩ := h
                      simp only [Bool.and_eq_true, decide_eq_true_eq] at hflag
                      obtain ⟨⟨hc1, hc2⟩, hfl⟩ := hflag
                      have hlt1 : ho < n := by omega
                      rw [← byteAt_agree htake hlt1, hb1]
                      simp only
                      rw [← byteAt_agree htake hc2, hb2]
                      simp only
                      rw [if_neg h7, if_neg h6, if_neg h01, if_neg h2, if_pos h3]
                      have hrec' : parseHeadersAux b n hEnd f (ho + 1 + nameLen + 1 + 2) acc
                          = .ok (h0, true) := by rw [hrec, hfl]
                      rw [ih _ _ _ hrec']
                      simp [hh0, hc1, hc2]
                  · by_cases h4 : vt = 4
                    · rw [if_neg h7, if_neg h6, if_neg h01, if_neg h2, if_neg h3, if_pos h4] at h
                      cases hrec : parseHeadersAux b n hEnd f (ho + 1 + nameLen + 1 + 4) acc with
                      | error e => rw [hrec] at h; simp at h
                      | ok p =>
                        obtain ⟨h0, fl⟩ := p
                        rw [hrec] at h
                        simp only [Except.ok.injEq, Prod.mk.injEq] at h
                        obtain ⟨hh0, hflag⟩ := h
                        simp only [Bool.and_eq_true, decide_eq_true_eq] at hflag
                        obtain ⟨⟨hc1, hc2⟩, hfl⟩ := hflag
                        have hlt1 : ho < n := by omega
                        rw [← byteAt_agree htake hlt1, hb1]
                        simp only
                        rw [← byteAt_agree htake hc2, hb2]
                        simp only
                        rw [if_neg h7, if_neg h6, if_neg h01, if_neg h2, if_neg h3, if_pos h4]
                        have hrec' : parseHeadersAux b n hEnd f (ho + 1 + nameLen + 1 + 4) acc
                            = .ok (h0, true) := by rw [hrec, hfl]
                        rw [ih _ _ _ hrec']
                        simp [hh0, hc1, hc2]
                    · by_cases h58 : vt = 5 ∨ vt = 8
                      · rw [if_neg h7, if_neg h6, if_neg h01, if_neg h2, if_neg h3, if_neg h4,
                          if_pos h58] at h
                        cases hrec : parseHeadersAux b n hEnd f (ho + 1 + nameLen + 1 + 8) acc with
                        | error e => rw [hrec] at h; simp at h
                        | ok p =>
                          obtain ⟨h0, fl⟩ := p
                          rw [hrec] at h
                          simp only [Except.ok.injEq, Prod.mk.injEq] at h
                          obtain ⟨hh0, hflag⟩ := h
                          simp only [Bool.and_eq_true, decide_eq_true_eq] at hflag
                          obtain ⟨⟨hc1, hc2⟩, hfl⟩ := hflag
                          have hlt1 : ho < n := by omega
                          rw [← byteAt_agree htake hlt1, hb1]
                          simp only
                          rw [← byteAt_agree htake hc2, hb2]
                          simp only
                          rw [if_neg h7, if_neg h6, if_neg h01, if_neg h2, if_neg h3, if_neg h4,
                            if_pos h58]
                          have hrec' : parseHeadersAux b n hEnd f (ho + 1 + nameLen + 1 + 8) acc
                              = .ok (h0, true) := by rw [hrec, hfl]
                          rw [ih _ _ _ hrec']
                          simp [hh0, hc1, hc2]
                      · by_cases h9 : vt = 9
                        · rw [if_neg h7, if_neg h6, if_neg h01, if_neg h2, if_neg h3, if_neg h4,
                            if_neg h58, if_pos h9] at h
                          cases hrec : parseHeadersAux b n hEnd f (ho + 1 + nameLen + 1 + 16) acc with
                          | error e => rw [hrec] at h; simp at h
                          | ok p =>
                            obtain ⟨h0, fl⟩ := p
                            rw [hrec] at h
                            simp only [Except.ok.injEq, Prod.mk.injEq] at h
                            obtain ⟨hh0, hflag⟩ := h
                            simp only [Bool.and_eq_true, decide_eq_true_eq] at hflag
                            obtain ⟨⟨hc1, hc2⟩, hfl⟩ := hflag
                            have hlt1 : ho < n := by omega
                            rw [← byteAt_agree htake hlt1, hb1]
                            simp only
                            rw [← byteAt_agree htake hc2, hb2]
                            simp only
                            rw [if_neg h7, if_neg h6, if_neg h01, if_neg h2, if_neg h3, if_neg h4,
                              if_neg h58, if_pos h9]
                            have hrec' : parseHeadersAux b n hEnd f (ho + 1 + nameLen + 1 + 16) acc
                                = .ok (h0, true) := by rw [hrec, hfl]
                            rw [ih _ _ _ hrec']
                            simp [hh0, hc1, hc2]
                        · rw [if_neg h7, if_neg h6, if_neg h01, if_neg h2, if_neg h3, if_neg h4,
                            if_neg h58, if_neg h9] at h
                          simp only [Except.ok.injEq, Prod.mk.injEq] at h
                          obtain ⟨hh0, hflag⟩ := h
                          simp only [Bool.and_eq_true, decide_eq_true_eq] at hflag
                          obtain ⟨hc1, hc2⟩ := hflag
                          have hlt1 : ho < n := by omega
                          rw [← byteAt_agree htake hlt1, hb1]
                          simp only
                          rw [← byteAt_agree htake hc2, hb2]
                          simp only
                          rw [if_neg h7, if_neg h6, if_neg h01, if_neg h2, if_neg h3, if_neg h4,
                            if_neg h58, if_neg h9]
                          simp [hh0, hc1, hc2]

theorem be32At_agree {b b' : List Nat} {n : Nat} (htake : b.take n = b'.take n)
    {i : Nat} (hi : i + 4 ≤ n) : be32At b i = be32At b' i := by
  unfold be32At
  rw [getD_agree htake (by omega), getD_agree htake (by omega),
    getD_agree htake (by omega), getD_agree htake (by omega)]

theorem stepFrame_frame_inv {b : List Nat} {f : ESFrame} {n : Nat} {l : Bool}
    (h : stepFrame b = .frame f n l) :
    PRELUDE_LENGTH ≤ b.length ∧ n = be32At b 0 ∧
    MIN_MESSAGE_LENGTH ≤ n ∧ n ≤ MAX_MESSAGE_LENGTH ∧ n ≤ b.length ∧
    ∃ hdrs, parseHeadersAux b n (PRELUDE_LENGTH + be32At b 4)
        (PRELUDE_LENGTH + be32At b 4 + 1) PRELUDE_LENGTH [] = .ok (hdrs, l) ∧
      f = ⟨hdrs, sliceB b (PRELUDE_LENGTH + be32At b 4) (n - MESSAGE_CRC_LENGTH)⟩ := by
  simp only [stepFrame] at h
  split at h
  · simp at h
  · split at h
    · simp at h
    · split at h
      · simp at h
      · split at h
        · simp at h
        · rename_i hlen hsane hcompl hres hdrs0 loc0 heq
          simp only [StepRes.frame.injEq] at h
          obtain ⟨hf, htl, hl⟩ := h
          subst htl
          subst hl
          subst hf
          refine ⟨by omega, rfl, by omega, by omega, by omega, hdrs0, heq, rfl⟩

theorem stepFrame_viewErr_inv {b : List Nat} (h : stepFrame b = .viewErr) :
    PRELUDE_LENGTH ≤ b.length ∧
    MIN_MESSAGE_LENGTH ≤ be32At b 0 ∧ be32At b 0 ≤ MAX_MESSAGE_LENGTH ∧ be32At b 0 ≤ b.length ∧
    parseHeadersAux b (be32At b 0) (PRELUDE_LENGTH + be32At b 4)
        (PRELUDE_LENGTH + be32At b 4 + 1) PRELUDE_LENGTH [] = .error () := by
  simp only [stepFrame] at h
  split at h
  · simp at h
  · split at h
    · simp at h
    · split at h
      · simp at h
      · split at h
        · rename_i hlen hsane hcompl hres heq
          exact ⟨by omega, by omega, by omega, by omega, heq⟩
        · simp at h

theorem stepFrame_fatal_inv {b : List Nat} {tl : Nat} (h : stepFrame b = .fatal tl) :
    PRELUDE_LENGTH ≤ b.length ∧ tl = be32At b 0 ∧
    (tl < MIN_MESSAGE_LENGTH ∨ MAX_MESSAGE_LENGTH < tl) := by
  simp only [stepFrame] at h
  split at h
  · simp at h
  · split at h
    · rename_i hlen hsane
      simp only [StepRes.fatal.injEq] at h
      subst h
      exact ⟨by omega, rfl, hsane⟩
    · split at h
      · simp at h
      · split at h
        · simp at h
        · simp at h

theorem stepFrame_local_agree {b b' : List Nat} {f : ESFrame} {n : Nat}
    (h : stepFrame b = .frame f n true)
    (hn' : n ≤ b'.length) (htake : b.take n = b'.take n) :
    stepFrame b' = .frame f n true := by
  obtain ⟨hlen, htl, hmin, hmax, hble, hdrs, hres, hf⟩ := stepFrame_frame_inv h
  have hM : MIN_MESSAGE_LENGTH = 16 := rfl
  have hP : PRELUDE_LENGTH = 12 := rfl
  have hC : MESSAGE_CRC_LENGTH = 4 := rfl
  have e0 : be32At b' 0 = be32At b 0 := (be32At_agree htake (by omega)).symm
  have e4 : be32At b' 4 = be32At b 4 := (be32At_agree htake (by omega)).symm
  have hres' : parseHeadersAux b' n (PRELUDE_LENGTH + be32At b 4)
      (PRELUDE_LENGTH + be32At b 4 + 1) PRELUDE_LENGTH [] = .ok (hdrs, true) :=
    parseHeadersAux_agree hble hn' htake _ _ _ _ hres
  subst htl
  subst hf
  simp only [stepFrame, e0, e4]
  rw [if_neg (by omega), if_neg (by omega), if_neg (by omega), hres']
  have hsl : sliceB b' (PRELUDE_LENGTH + be32At b 4) (be32At b 0 - MESSAGE_CRC_LENGTH)
      = sliceB b (PRELUDE_LENGTH + be32At b 4) (be32At b 0 - MESSAGE_CRC_LENGTH) :=
    (sliceB_agree htake (by omega)).symm
  rw [hsl]

theorem stepFrame_fatal_ext {b ext : List Nat} {tl : Nat} (h : stepFrame b = .fatal tl) :
    stepFrame (b ++ ext) = .fatal tl := by
  obtain ⟨hlen, htl, hbad⟩ := stepFrame_fatal_inv h
  have hP : PRELUDE_LENGTH = 12 := rfl
  have htake : b.take PRELUDE_LENGTH = (b ++ ext).take PRELUDE_LENGTH := by
    rw [List.take_append_of_le_length hlen]
  have e0 : be32At (b ++ ext) 0 = be32At b 0 := (be32At_agree htake (by omega)).symm
  have hlen' : PRELUDE_LENGTH ≤ (b ++ ext).length := by
    rw [List.length_append]; omega
  subst htl
  simp only [stepFrame, e0]
  rw [if_neg (by omega), if_pos hbad]

theorem stepFrame_frame_local_ext {b ext : List Nat} {f : ESFrame} {n : Nat}
    (h : stepFrame b = .frame f n true) : stepFrame (b ++ ext) = .frame f n true := by
  have hbnd := stepFrame_frame_bounds h
  refine stepFrame_local_agree h ?_ ?_
  · rw [List.length_append]; omega
  · rw [List.take_append_of_le_length hbnd.2]

theorem stepFrame_ext_nonlocal {b ext : List Nat}
    (h : stepFrame b = .viewErr ∨ ∃ f n, stepFrame b = .frame f n false) :
    stepFrame (b ++ ext) = .viewErr ∨ ∃ f n, stepFrame (b ++ ext) = .frame f n false := by
  have hM : MIN_MESSAGE_LENGTH = 16 := rfl
  have hP : PRELUDE_LENGTH = 12 := rfl
  -- facts common to both hypothesis cases
  have hfacts : PRELUDE_LENGTH ≤ b.length ∧ MIN_MESSAGE_LENGTH ≤ be32At b 0 ∧
      be32At b 0 ≤ MAX_MESSAGE_LENGTH ∧ be32At b 0 ≤ b.length := by
    rcases h with hv | ⟨f, n, hf⟩
    · obtain ⟨h1, h2, h3, h4, _⟩ := stepFrame_viewErr_inv hv
      exact ⟨h1, h2, h3, h4⟩
    · obtain ⟨h1, htl, h3, h4, h5, _⟩ := stepFrame_frame_inv hf
      subst htl
      exact ⟨h1, h3, h4, h5⟩
  obtain ⟨hlen, hmin, hmax, hble⟩ := hfacts
  have htake : b.take (be32At b 0) = (b ++ ext).take (be32At b 0) := by
    rw [List.take_append_of_le_length hble]
  have e0 : be32At (b ++ ext) 0 = be32At b 0 := (be32At_agree htake (by omega)).symm
  have e4 : be32At (b ++ ext) 4 = be32At b 4 := (be32At_agree htake (by omega)).symm
  have hlen' : be32At b 0 ≤ (b ++ ext).length := by
    rw [List.length_append]; omega
  -- the extension cannot produce a local parse
  cases hstep : stepFrame (b ++ ext) with
  | needMore =>
    exfalso
    simp only [stepFrame, e0] at hstep
    rw [if_neg (by rw [List.length_append]; omega), if_neg (by omega),
      if_neg (by omega)] at hstep
    split at hstep <;> simp at hstep
  | fatal tl =>
    exfalso
    obtain ⟨_, htl, hbad⟩ := stepFrame_fatal_inv hstep
    rw [e0] at htl
    omega
  | viewErr => exact .inl rfl
  | frame f' n' l' =>
    obtain ⟨_, htl', _, _, _, hdrs', hres', hf'⟩ := stepFrame_frame_inv hstep
    cases l' with
    | false => exact .inr ⟨f', n', rfl⟩
    | true =>
      exfalso
      -- transfer the local parse back to b, contradicting the hypothesis
      have hb' : stepFrame b = .frame f' n' true := by
        apply stepFrame_local_agree hstep
        · rw [e0] at htl'; omega
        · rw [htl', e0, ← htake]
      rcases h with hv | ⟨f, n, hf⟩
      · rw [hv] at hb'; exact absurd hb' (by simp)
      · rw [hf] at hb'
        injection hb' with h1 h2 h3
        exact Bool.false_ne_true h3

theorem drain_append_aux : ∀ (k : Nat) (buf ext : List Nat), buf.length ≤ k →
    (drain (buf ++ ext)).loc = true →
    (drain buf).loc = true ∧
    ((∃ r, (drain buf).final = .ok r ∧
        (drain (buf ++ ext)).frames = (drain buf).frames ++ (drain (r ++ ext)).frames ∧
        (drain (buf ++ ext)).final = (drain (r ++ ext)).final ∧
        (drain (r ++ ext)).loc = true) ∨
     (∃ e, (drain buf).final = .error e ∧
        drain (buf ++ ext) = ⟨(drain buf).frames, .error e, true⟩)) := by
  intro k
  induction k with
  | zero =>
    intro buf ext hk hloc
    have hempty : buf = [] := List.length_eq_zero.mp (by omega)
    subst hempty
    have hstep : stepFrame [] = .needMore := by decide
    rw [drain_needMore hstep]
    refine ⟨rfl, .inl ⟨[], rfl, ?_, ?_, ?_⟩⟩
    · simp
    · simp
    · simpa using hloc
  | succ k ih =>
    intro buf ext hk hloc
    have hM : MIN_MESSAGE_LENGTH = 16 := rfl
    cases hstep : stepFrame buf with
    | needMore =>
      rw [drain_needMore hstep]
      exact ⟨rfl, .inl ⟨buf, rfl, by simp, rfl, hloc⟩⟩
    | fatal tl =>
      rw [drain_fatal hstep]
      have hext := @stepFrame_fatal_ext buf ext tl hstep
      rw [drain_fatal hext]
      exact ⟨rfl, .inr ⟨.badLength tl, rfl, rfl⟩⟩
    | viewErr =>
      exfalso
      rcases @stepFrame_ext_nonlocal buf ext (.inl hstep) with hv | ⟨f', n', hf'⟩
      · rw [drain_viewErr hv] at hloc
        exact Bool.false_ne_true hloc
      · rw [drain_frame hf'] at hloc
        simp at hloc
    | frame f n l =>
      cases l with
      | false =>
        exfalso
        rcases @stepFrame_ext_nonlocal buf ext (.inr ⟨f, n, hstep⟩) with hv | ⟨f', n', hf'⟩
        · rw [drain_viewErr hv] at hloc
          exact Bool.false_ne_true hloc
        · rw [drain_frame hf'] at hloc
          simp at hloc
      | true =>
        have hbnd := stepFrame_frame_bounds hstep
        have hext := @stepFrame_frame_local_ext buf ext f n hstep
        have hdropapp : (buf ++ ext).drop n = buf.drop n ++ ext :=
          List.drop_append_of_le_length hbnd.2
        rw [drain_frame hstep]
        rw [drain_frame hext, hdropapp] at hloc ⊢
        simp only [Bool.true_and] at hloc ⊢
        have hdlen : (buf.drop n).length ≤ k := by
          rw [List.length_drop]
          omega
        obtain ⟨hloc', hdisj⟩ := ih (buf.drop n) ext hdlen hloc
        refine ⟨hloc', ?_⟩
        rcases hdisj with ⟨r, hfin, hfr, hfin2, hloc2⟩ | ⟨e, hfin, heq⟩
        · exact .inl ⟨r, hfin, by rw [hfr]; simp, hfin2, hloc2⟩
        · refine .inr ⟨e, hfin, ?_⟩
          rw [heq]

theorem drain_append' (buf ext : List Nat) (hloc : (drain (buf ++ ext)).loc = true) :
    (drain buf).loc = true ∧
    ((∃ r, (drain buf).final = .ok r ∧
        (drain (buf ++ ext)).frames = (drain buf).frames ++ (drain (r ++ ext)).frames ∧
        (drain (buf ++ ext)).final = (drain (r ++ ext)).final ∧
        (drain (r ++ ext)).loc = true) ∨
     (∃ e, (drain buf).final = .error e ∧
        drain (buf ++ ext) = ⟨(drain buf).frames, .error e, true⟩)) :=
  drain_append_aux buf.length buf ext le_rfl hloc

theorem drain_quiescent_aux : ∀ (k : Nat) (buf r : List Nat), buf.length ≤ k →
    (drain buf).final = .ok r → drain r = ⟨[], .ok r, true⟩ := by
  intro k
  induction k with
  | zero =>
    intro buf r hk hfin
    have hempty : buf = [] := List.length_eq_zero.mp (by omega)
    subst hempty
    have hstep : stepFrame [] = .needMore := by decide
    rw [drain_needMore hstep] at hfin
    simp only [Except.ok.injEq] at hfin
    subst hfin
    exact drain_needMore hstep
  | succ k ih =>
    intro buf r hk hfin
    have hM : MIN_MESSAGE_LENGTH = 16 := rfl
    cases hstep : stepFrame buf with
    | needMore =>
      rw [drain_needMore hstep] at hfin
      simp only [Except.ok.injEq] at hfin
      subst hfin
      exact drain_needMore hstep
    | fatal tl => rw [drain_fatal hstep] at hfin; simp at hfin
    | viewErr => rw [drain_viewErr hstep] at hfin; simp at hfin
    | frame f n l =>
      have hbnd := stepFrame_frame_bounds hstep
      rw [drain_frame hstep] at hfin
      exact ih (buf.drop n) r (by rw [List.length_drop]; omega) hfin

theorem feedGo_eq : ∀ (chunks : List (List Nat)) (st : List Nat),
    drain st = ⟨[], .ok st, true⟩ →
    (drain (st ++ chunks.flatten)).loc = true →
    feedGo st chunks = ⟨(drain (st ++ chunks.flatten)).frames, (drain (st ++ chunks.flatten)).final⟩ := by
  intro chunks
  induction chunks with
  | nil =>
    intro st hq hloc
    have hfl : ([] : List (List Nat)).flatten = [] := rfl
    simp only [feedGo, hfl, List.append_nil]
    rw [hq]
  | cons c cs ih =>
    intro st hq hloc
    have hassoc : st ++ (c :: cs).flatten = (st ++ c) ++ cs.flatten := by
      have hfl : (c :: cs).flatten = c ++ cs.flatten := rfl
      rw [hfl, List.append_assoc]
    rw [hassoc] at hloc ⊢
    obtain ⟨hloc1, hdisj⟩ := drain_append' (st ++ c) cs.flatten hloc
    rcases hdisj with ⟨r, hfin, hfr, hfin2, hloc2⟩ | ⟨e, hfin, heq⟩
    · have hqr : drain r = ⟨[], .ok r, true⟩ :=
        drain_quiescent_aux (st ++ c).length (st ++ c) r le_rfl hfin
      simp only [feedGo, hfin]
      rw [ih r hqr hloc2, hfr, hfin2]
    · simp only [feedGo, hfin]
      rw [heq]

theorem feedAll_single (s : List Nat) :
    feedAll [s] = ⟨(drain s).frames, (drain s).final⟩ := by
  simp only [feedAll, feedGo, List.nil_append]
  cases hfin : (drain s).final with
  | error e => rfl
  | ok st' => simp

/-- C1 (amended): feeding a byte stream to the demultiplexer in any chunking
produces the same decoded frames, final state and SSE output as feeding it as
a single chunk, PROVIDED every frame parse of the stream is self-contained
(all header reads stay inside the frame's declared total length, the
instrumented `loc` flag of the single-chunk drain). Without that proviso the
claim is false: see the counterexample. -/

theorem c1_chunk_boundary_independence (chunks : List (List Nat))
    (hloc : (drain chunks.flatten).loc = true) :
    feedAll chunks = feedAll [chunks.flatten]
    ∧ sseOfFrames (feedAll chunks).frames = sseOfFrames (feedAll [chunks.flatten]).frames := by
  have hq : drain ([] : List Nat) = ⟨[], .ok [], true⟩ := by decide
  have h1 : feedAll chunks = ⟨(drain chunks.flatten).frames, (drain chunks.flatten).final⟩ := by
    have h := feedGo_eq chunks [] hq (by simpa using hloc)
    simpa [feedAll] using h
  rw [h1, feedAll_single]
  exact ⟨rfl, rfl⟩

theorem c1_chunk_boundary_independence_witness :
    feedAll (c1demo.map (fun x => [x])) = feedAll [c1demo]
    ∧ sseOfFrames (feedAll (c1demo.map (fun x => [x]))).frames
        = sseOfFrames (feedAll [c1demo]).frames := by
  have h := c1_chunk_boundary_independence (c1demo.map (fun x => [x])) (by decide)
  have hj : (c1demo.map (fun x => [x])).flatten = c1demo := by decide
  rw [hj] at h
  exact h

theorem c1_chunk_boundary_dependence_counterexample :
    feedAll (cxStream.map (fun b => [b])) ≠ feedAll [cxStream] := by decide

-- ===========================================================================
-- Bedrock Converse stream parser (bedrock-converse.parser.ts)
-- ===========================================================================

/-- The canonical stop reasons produced by `_fromConverseStopReason`
(`'ok' | 'ok-tool_invocations' | 'out-of-tokens' | 'filter-content'`). -/

theorem handleEvent_clean_shape (st : BCState) (e : BCEvent) (h : st.hasErrored = false) :
    ((handleEvent st e).2.any isTerminal = emitsTerminal e)
    ∧ (∀ p ∈ (handleEvent st e).2.dropLast, isTerminal p = false)
    ∧ ((handleEvent st e).2.countP isTerminal = if emitsTerminal e then 1 else 0)
    ∧ (emitsTerminal e = false → (handleEvent st e).1.hasErrored = false) := by
  unfold emitsTerminal handleEvent
  simp only [h, initBCState, Bool.false_eq_true, if_false]
  repeat' split
  all_goals simp_all [isTerminal, bcErrorOut]

theorem runParserLoop_shape : ∀ (events : List BCEvent) (st : BCState),
    st.hasErrored = false →
    ((runParserLoop st events).countP isTerminal
        = if events.any emitsTerminal then 1 else 0)
    ∧ (∀ p ∈ (runParserLoop st events).dropLast, isTerminal p = false) := by
  intro events
  induction events with
  | nil =>
    intro st h
    simp [runParserLoop]
  | cons e es ih =>
    intro st h
    obtain ⟨hany, hdrop, hcount, hflag⟩ := handleEvent_clean_shape st e h
    simp only [runParserLoop]
    cases hterm : (handleEvent st e).2.any isTerminal with
    | true =>
      simp only [hterm, if_true, List.append_nil]
      have hemits : emitsTerminal e = true := by rw [← hany, hterm]
      constructor
      · rw [hcount, hemits]
        simp [List.any_cons, hemits]
      · exact hdrop
    | false =>
      have hemits : emitsTerminal e = false := by rw [← hany, hterm]
      have hflag' := hflag hemits
      obtain ⟨ihc, ihd⟩ := ih (handleEvent st e).1 hflag'
      simp only [hterm, if_false, Bool.false_eq_true]
      constructor
      · rw [List.countP_append, hcount, hemits]
        simp only [if_false, Bool.false_eq_true, Nat.zero_add, List.any_cons, hemits,
          Bool.false_or]
        exact ihc
      · intro p hp
        by_cases hrec : runParserLoop (handleEvent st e).1 es = []
        · rw [hrec, List.append_nil] at hp
          have hmem := (List.dropLast_sublist (handleEvent st e).2).subset hp
          exact Bool.eq_false_iff.mpr (List.any_eq_false.mp hterm p hmem)
        · rw [List.dropLast_append_of_ne_nil _ hrec] at hp
          rcases List.mem_append.mp hp with hmem | hmem
          · exact Bool.eq_false_iff.mpr (List.any_eq_false.mp hterm p hmem)
          · exact ihd p hmem

/-- C2: for every sequence of events fed to the streaming event parser (the
dispatch loop stops forwarding after a terminal particle, per the
spec-modelled `runParserLoop`), exactly one terminal particle is emitted when
any event triggers termination (normal completion via messageStop, a
JSON-parse failure, or a schema-validation failure), zero otherwise, and no
particle of any kind follows the terminal particle. -/

theorem c2_single_terminal_particle (events : List BCEvent) :
    ((runParserLoop initBCState events).countP isTerminal
        = if events.any emitsTerminal then 1 else 0)
    ∧ (∀ p ∈ (runParserLoop initBCState events).dropLast, isTerminal p = false) :=
  runParserLoop_shape events initBCState rfl

/-- A concrete event sequence: a metadata event, a normal messageStop, then a
further text delta arriving after the terminal particle. -/

theorem c2_single_terminal_particle_witness :
    ((runParserLoop initBCState c2events).countP isTerminal = 1)
    ∧ isTerminal (Particle.metricsUpdate 3 4 none 7) = false := by
  have h := c2_single_terminal_particle c2events
  exact ⟨h.1.trans (by decide), h.2 (Particle.metricsUpdate 3 4 none 7) (by decide)⟩

-- ===========================================================================
-- C5: stop-reason mapping on messageStop
-- ===========================================================================

/-- C5 (amended): a valid messageStop event emits the mapped stop-reason
particle followed by the terminal stream-ended particle when the provider's
stop reason is one of the recognized strings, and ONLY the terminal particle
when the stop reason is unrecognized — there is no 'other' fallback mapping;
every mapped reason lies in the canonical four-element set. -/

theorem c5_message_stop_mapping (d : List Nat) (v : JValue) (sr : List Nat)
    (st : BCState) (t : Int)
    (herr : st.hasErrored = false)
    (hparse : jsonParse d = .ok v)
    (hval : valMessageStop v = .ok sr) :
    ((handleEvent st ⟨d, some (strB "messageStop"), t⟩).2
      = (match fromConverseStopReason sr with
         | some r => [Particle.stopReason r]
         | none => []) ++ [Particle.dialectEnded])
    ∧ ∀ r, fromConverseStopReason sr = some r →
        (r = .ok ∨ r = .okToolInvocations ∨ r = .outOfTokens ∨ r = .filterContent) := by
  constructor
  · unfold handleEvent
    simp only [herr, Bool.false_eq_true, if_false, hparse]
    rw [if_neg (by decide), if_neg (by decide), if_neg (by decide), if_neg (by decide),
      if_pos (by decide), hval]
  · intro r _
    cases r
    · exact .inl rfl
    · exact .inr (.inl rfl)
    · exact .inr (.inr (.inl rfl))
    · exact .inr (.inr (.inr rfl))

/-- Witness for C5 at a concrete max_tokens messageStop event. -/

theorem c5_message_stop_mapping_witness :
    ((handleEvent initBCState
        ⟨strB "\x7b\"stopReason\":\"max_tokens\"\x7d", some (strB "messageStop"), 0⟩).2
      = (match fromConverseStopReason (strB "max_tokens") with
         | some r => [Particle.stopReason r]
         | none => []) ++ [Particle.dialectEnded])
    ∧ (TokenStopReason.outOfTokens = .ok ∨ TokenStopReason.outOfTokens = .okToolInvocations
        ∨ TokenStopReason.outOfTokens = .outOfTokens
        ∨ TokenStopReason.outOfTokens = .filterContent) := by
  have h := c5_message_stop_mapping (strB "\x7b\"stopReason\":\"max_tokens\"\x7d")
    (.jobj [(strB "stopReason", .jstr (strB "max_tokens"))]) (strB "max_tokens")
    initBCState 0 rfl (by rfl) (by rfl)
  exact ⟨h.1, h.2 .outOfTokens (by decide)⟩

/-- An event carrying an unrecognized stop-reason string. -/

theorem c5_unknown_stop_reason_counterexample :
    (handleEvent initBCState c5UnknownStopEvent).2 = [Particle.dialectEnded]
    ∧ (handleEvent initBCState c5UnknownStopEvent).2.countP isStopReasonParticle = 0 := by
  decide

-- ===========================================================================
-- C6: tool-use delta with no open tool-call id is dropped
-- ===========================================================================

/-- C6: a contentBlockDelta carrying a tool-use input fragment that arrives
when no tool-call id is open is dropped: the parser emits no particle, does
not throw, does not set the error flag, and leaves its state unchanged so
subsequent events are processed normally. -/

theorem c6_orphan_tool_delta_dropped (d : List Nat) (v : JValue) (inp : List Nat)
    (idx : Int) (st : BCState) (t : Int)
    (herr : st.hasErrored = false)
    (hopen : st.currentToolUseId = none)
    (hparse : jsonParse d = .ok v)
    (hval : valContentBlockDelta v = .ok (idx, .dtool inp)) :
    handleEvent st ⟨d, some (strB "contentBlockDelta"), t⟩ = (st, []) := by
  unfold handleEvent
  simp only [herr, Bool.false_eq_true, if_false, hparse]
  rw [if_neg (by decide), if_neg (by decide), if_pos (by decide), hval]
  simp [hopen]

/-- Witness for C6 at a concrete orphan tool-use delta. -/

theorem c6_orphan_tool_delta_dropped_witness :
    handleEvent initBCState
      ⟨strB "\x7b\"contentBlockIndex\":0,\"delta\":\x7b\"toolUse\":\x7b\"input\":\"x\"\x7d\x7d\x7d",
       some (strB "contentBlockDelta"), 0⟩ = (initBCState, []) :=
  c6_orphan_tool_delta_dropped
    (strB "\x7b\"contentBlockIndex\":0,\"delta\":\x7b\"toolUse\":\x7b\"input\":\"x\"\x7d\x7d\x7d")
    (.jobj [(strB "contentBlockIndex", .jnum 0),
            (strB "delta", .jobj [(strB "toolUse", .jobj [(strB "input", .jstr (strB "x"))])])])
    (strB "x") 0 initBCState 0 rfl rfl (by rfl) (by rfl)

-- ===========================================================================
-- Bedrock Converse request adapter (aixToBedrockConverse)
-- ===========================================================================

/-- Canonical message roles of the AIX chat sequence. -/

theorem c8_sampling_params_only_when_set (model : AixModel) (cg : AixChatGenerate)
    (req : ConverseRequest) (h : aixToBedrockConverse model cg = .ok req) :
    req.inferenceConfig
      = if model.maxTokens.isSome || (tempFlat model.temperature).isSome || model.topP.isSome
        then some ⟨model.maxTokens, tempFlat model.temperature, model.topP⟩
        else none := by
  simp only [aixToBedrockConverse] at h
  split at h
  · exact absurd h (by simp)
  · split at h
    · exact absurd h (by simp)
    · simp only [Except.ok.injEq] at h
      subst h
      rfl

/-- Witness for C8: maxTokens set, temperature explicitly null, topP unset. -/

theorem c8_sampling_params_only_when_set_witness :
    (⟨none, [], some ⟨some 100, none, none⟩, none⟩ : ConverseRequest).inferenceConfig
      = if (some 100 : Option Int).isSome
            || (tempFlat (some none)).isSome || (none : Option Int).isSome
        then some ⟨some 100, tempFlat (some none), none⟩
        else none :=
  c8_sampling_params_only_when_set ⟨some 100, some none, none⟩ ⟨none, [], none, none⟩
    ⟨none, [], some ⟨some 100, none, none⟩, none⟩ (by rfl)

-- ===========================================================================
-- C9: image mime-type mapping never fails
-- ===========================================================================

/-- C9: the adapter maps the mime subtypes png, jpeg, jpg, gif and webp to
the corresponding wire image format (jpg normalized to jpeg), silently maps
every other mime type to jpeg, and an inline image part in a user message
always adapts successfully (never an error), whatever its mime type. -/

theorem c9_mime_format_mapping (m b64 : List Nat) :
    (mimeToConverseFormat (strB "image/png") = .png
      ∧ mimeToConverseFormat (strB "image/jpeg") = .jpeg
      ∧ mimeToConverseFormat (strB "image/jpg") = .jpeg
      ∧ mimeToConverseFormat (strB "image/gif") = .gif
      ∧ mimeToConverseFormat (strB "image/webp") = .webp)
    ∧ (splitSlashSecond m ∉ [some (strB "png"), some (strB "jpeg"), some (strB "jpg"),
        some (strB "gif"), some (strB "webp")] → mimeToConverseFormat m = .jpeg)
    ∧ userPartBlocks (.inline_image m b64)
        = .ok [(.user, .image (mimeToConverseFormat m) b64)] := by
  refine ⟨⟨by decide, by decide, by decide, by decide, by decide⟩, ?_, rfl⟩
  intro hnot
  unfold mimeToConverseFormat
  cases hsp : splitSlashSecond m with
  | none => simp only [hsp]
  | some s =>
    rw [hsp] at hnot
    simp only [hsp]
    have h1 : s ≠ strB "png" := fun e => hnot (by simp [e])
    have h2 : ¬(s = strB "jpeg" ∨ s = strB "jpg") := by
      rintro (e | e) <;> exact hnot (by simp [e])
    have h3 : s ≠ strB "gif" := fun e => hnot (by simp [e])
    have h4 : s ≠ strB "webp" := fun e => hnot (by simp [e])
    rw [if_neg h1, if_neg h2, if_neg h3, if_neg h4]

/-- Witness for C9 at an unrecognized mime type. -/

theorem c9_mime_format_mapping_witness :
    mimeToConverseFormat (strB "image/bmp") = .jpeg
    ∧ userPartBlocks (.inline_image (strB "image/bmp") (strB "QUJD"))
        = .ok [(.user, .image (mimeToConverseFormat (strB "image/bmp")) (strB "QUJD"))] :=
  ⟨(c9_mime_format_mapping (strB "image/bmp") (strB "QUJD")).2.1 (by decide),
   (c9_mime_format_mapping (strB "image/bmp") (strB "QUJD")).2.2⟩

-- ===========================================================================
-- C4: message order preservation under same-role merging and flush markers
-- ===========================================================================

/-- The flattened stream of resolved wire blocks of a canonical message
sequence, with a `none` marker after each message that carries the explicit
flush marker. -/

theorem specGroupAux_blocks (bs : List (ConverseRole × ConverseContentBlock)) :
    ∀ (acc : List ConverseMessage) (cur : Option ConverseMessage)
      (its : List (Option (ConverseRole × ConverseContentBlock))),
    acc ++ specGroupAux cur (bs.map some ++ its)
      = (bs.foldl addBlock ⟨acc, cur⟩).acc ++ specGroupAux (bs.foldl addBlock ⟨acc, cur⟩).cur its := by
  induction bs with
  | nil => intro acc cur its; rfl
  | cons b bs ih =>
    intro acc cur its
    obtain ⟨r, c⟩ := b
    simp only [List.map_cons, List.cons_append, List.foldl_cons]
    cases cur with
    | none =>
      have haddb : addBlock ⟨acc, none⟩ (r, c) = ⟨acc, some ⟨r, [c]⟩⟩ := rfl
      rw [haddb]
      exact ih acc (some ⟨r, [c]⟩) its
    | some g =>
      obtain ⟨gr, gc⟩ := g
      by_cases hrole : gr = r
      · have haddb : addBlock ⟨acc, some ⟨gr, gc⟩⟩ (r, c) = ⟨acc, some ⟨gr, gc ++ [c]⟩⟩ := by
          simp only [addBlock, if_pos hrole]
        have hstep : specGroupAux (some ⟨gr, gc⟩) (some (r, c) :: (bs.map some ++ its))
            = specGroupAux (some ⟨gr, gc ++ [c]⟩) (bs.map some ++ its) := by
          simp only [specGroupAux, if_pos hrole]
        rw [haddb, hstep]
        exact ih acc (some ⟨gr, gc ++ [c]⟩) its
      · have haddb : addBlock ⟨acc, some ⟨gr, gc⟩⟩ (r, c) = ⟨acc ++ [⟨gr, gc⟩], some ⟨r, [c]⟩⟩ := by
          simp only [addBlock, if_neg hrole]
        have hstep : specGroupAux (some ⟨gr, gc⟩) (some (r, c) :: (bs.map some ++ its))
            = ⟨gr, gc⟩ :: specGroupAux (some ⟨r, [c]⟩) (bs.map some ++ its) := by
          simp only [specGroupAux, if_neg hrole]
        rw [haddb, hstep]
        rw [show acc ++ ⟨gr, gc⟩ :: specGroupAux (some ⟨r, [c]⟩) (bs.map some ++ its)
            = (acc ++ [⟨gr, gc⟩]) ++ specGroupAux (some ⟨r, [c]⟩) (bs.map some ++ its) by simp]
        exact ih (acc ++ [⟨gr, gc⟩]) (some ⟨r, [c]⟩) its

theorem specGroupAux_flush (acc : List ConverseMessage) (cur : Option ConverseMessage)
    (its : List (Option (ConverseRole × ConverseContentBlock))) :
    acc ++ specGroupAux cur (none :: its)
      = (pushCur ⟨acc, cur⟩).acc ++ specGroupAux (pushCur ⟨acc, cur⟩).cur its := by
  cases cur with
  | none => rfl
  | some g =>
    have hpush : pushCur ⟨acc, some g⟩ = ⟨acc ++ [g], none⟩ := rfl
    rw [hpush]
    simp [specGroupAux]

theorem specGroupAux_blocks' (bs : List (ConverseRole × ConverseContentBlock))
    (st : MergeState) (its : List (Option (ConverseRole × ConverseContentBlock))) :
    st.acc ++ specGroupAux st.cur (bs.map some ++ its)
      = (bs.foldl addBlock st).acc ++ specGroupAux (bs.foldl addBlock st).cur its := by
  obtain ⟨acc, cur⟩ := st
  exact specGroupAux_blocks bs acc cur its

theorem specGroupAux_flush' (st : MergeState)
    (its : List (Option (ConverseRole × ConverseContentBlock))) :
    st.acc ++ specGroupAux st.cur (none :: its)
      = (pushCur st).acc ++ specGroupAux (pushCur st).cur its := by
  obtain ⟨acc, cur⟩ := st
  exact specGroupAux_flush acc cur its

theorem convFold_spec : ∀ (msgs : List AixMessage) (st st' : MergeState)
    (its : List (Option (ConverseRole × ConverseContentBlock))),
    msgs.foldlM convStep st = .ok st' → itemsOf msgs = .ok its →
    (pushCur st').acc = st.acc ++ specGroupAux st.cur its := by
  intro msgs
  induction msgs with
  | nil =>
    intro st st' its hf hi
    simp only [List.foldlM_nil] at hf
    simp only [itemsOf, List.mapM_nil] at hi
    obtain ⟨acc, cur⟩ := st
    have hst : st' = ⟨acc, cur⟩ := by
      injection hf with h
      exact h.symm
    have hits : its = [] := by
      injection hi with h
      exact h.symm
    subst hst
    subst hits
    cases cur with
    | none => simp [pushCur, specGroupAux]
    | some g => simp [pushCur, specGroupAux]
  | cons m rest ih =>
    intro st st' its hf hi
    cases hg : generateConverseContentBlocks m with
    | error e =>
      simp only [List.foldlM_cons, convStep, hg] at hf
      exact absurd hf (by simp [Bind.bind, Except.bind])
    | ok bs =>
      have hcs : convStep st m
          = .ok (if aixSpillShallFlush m then pushCur (bs.foldl addBlock st)
                 else bs.foldl addBlock st) := by
        simp [convStep, hg]
      simp only [List.foldlM_cons, hcs] at hf
      simp only [Bind.bind, Except.bind] at hf
      -- decompose the items of m :: rest
      simp only [itemsOf, List.mapM_cons, hg] at hi
      cases hrest : rest.mapM (fun m => (generateConverseContentBlocks m).map
          (fun bs => bs.map some ++ if aixSpillShallFlush m then [none] else [])) with
      | error e =>
        rw [hrest] at hi
        exact absurd hi (by simp [Bind.bind, Except.bind, Except.map])
      | ok ls =>
        rw [hrest] at hi
        simp only [Bind.bind, Except.bind, Except.map, Except.pure, Pure.pure,
          Except.ok.injEq, List.flatten_cons] at hi
        have hirest : itemsOf rest = .ok ls.flatten := by
          unfold itemsOf
          rw [hrest]
          rfl
        cases hfl : aixSpillShallFlush m with
        | false =>
          rw [hfl] at hf hi
          have hIH := ih (bs.foldl addBlock st) st' ls.flatten hf hirest
          rw [hIH, ← specGroupAux_blocks' bs st ls.flatten, ← hi]
          simp
        | true =>
          rw [hfl] at hf hi
          have hIH := ih (pushCur (bs.foldl addBlock st)) st' ls.flatten hf hirest
          rw [hIH, ← specGroupAux_flush' (bs.foldl addBlock st) ls.flatten,
            ← specGroupAux_blocks' bs st (none :: ls.flatten), ← hi]
          simp

theorem specGroupAux_contents : ∀ (its : List (Option (ConverseRole × ConverseContentBlock)))
    (cur : Option ConverseMessage),
    ((specGroupAux cur its).map ConverseMessage.content).flatten
      = (match cur with
         | some g => g.content
         | none => []) ++ (its.filterMap id).map Prod.snd := by
  intro its
  induction its with
  | nil => intro cur; cases cur <;> simp [specGroupAux]
  | cons it rest ih =>
    intro cur
    cases it with
    | none =>
      cases cur with
      | none => simpa [specGroupAux] using ih none
      | some g => simp [specGroupAux, ih none]
    | some rc =>
      obtain ⟨r, c⟩ := rc
      cases cur with
      | none => simp [specGroupAux, ih (some ⟨r, [c]⟩)]
      | some g =>
        by_cases hrole : g.role = r
        · simp [specGroupAux, if_pos hrole, ih (some ⟨g.role, g.content ++ [c]⟩)]
        · simp [specGroupAux, if_neg hrole, ih (some ⟨r, [c]⟩)]

/-- C4: for every canonical request the adapter accepts, the produced wire
messages are exactly the spec-side grouping of the resolved block stream —
a new wire message starts exactly at a role change or after a flush-marked
canonical message — and concatenating the wire messages' content lists gives
back every resolved content block in the original order. -/

theorem c4_message_order_preserved (model : AixModel) (cg : AixChatGenerate)
    (req : ConverseRequest) (its : List (Option (ConverseRole × ConverseContentBlock)))
    (h : aixToBedrockConverse model cg = .ok req)
    (hits : itemsOf cg.chatSequence = .ok its) :
    req.messages = specGroupAux none its
    ∧ (req.messages.map ConverseMessage.content).flatten = (its.filterMap id).map Prod.snd := by
  have hmsgs : converseChatMessages cg.chatSequence = .ok req.messages := by
    simp only [aixToBedrockConverse] at h
    split at h
    · exact absurd h (by simp)
    · split at h
      · exact absurd h (by simp)
      · rename_i heq
        simp only [Except.ok.injEq] at h
        subst h
        exact heq
  have hmain : req.messages = specGroupAux none its := by
    simp only [converseChatMessages] at hmsgs
    split at hmsgs
    · exact absurd hmsgs (by simp)
    · rename_i stf hfold
      simp only [Except.ok.injEq] at hmsgs
      have hspec := convFold_spec cg.chatSequence ⟨[], none⟩ stf its hfold hits
      rw [← hmsgs, hspec]
      rfl
  refine ⟨hmain, ?_⟩
  rw [hmain]
  simpa using specGroupAux_contents its none

theorem c4_message_order_preserved_witness :
    c4req.messages = specGroupAux none c4its
    ∧ (c4req.messages.map ConverseMessage.content).flatten
        = (c4its.filterMap id).map Prod.snd :=
  c4_message_order_preserved ⟨none, none, none⟩ ⟨none, c4msgs, none, none⟩ c4req c4its
    (by rfl) (by rfl)
